import Mathlib

/-!
Verification of `download_class_dojo.py`.

The script is embedded shallowly:

* Python's JSON data (the values produced by `resp.json()` / `json.loads`
  and consumed by `json.dumps`) is the inductive type `Json`.
* Python exceptions are the error side of `Except PyErr`.
* `requests.get` + `resp.json()` is an oracle `world : String → Option Json`
  (`none` models a network / JSON-decode failure).
* The filesystem is a map `String → Option (List Nat)` from paths to byte
  contents where it matters (the downloader), and file contents are the
  written strings where the snapshot is concerned.
* Loops that follow data-dependent cursors are given explicit fuel; a
  result of `none` means the fuel was exhausted.

All definitions are translated from the source of the repository; helper
functions model the exact Python library semantics the source relies on
(`str.split`, `str.replace`, `dict.get`, `datetime.strptime`,
`datetime.strftime`, `json.dumps(indent=4)`, `json.loads`).
-/

/-- A Python/JSON value, as produced by `resp.json()` in the script. -/
inductive Json where
  | null : Json
  | bool (b : Bool) : Json
  | num (n : Int) : Json
  | str (s : String) : Json
  | arr (elems : List Json) : Json
  | obj (fields : List (String × Json)) : Json

/-- The Python exceptions the script can raise. -/
inductive PyErr where
  | keyError (k : String)
  | attributeError
  | typeError
  | valueError
  | networkError
  deriving DecidableEq, Repr

/-- Python truthiness of a JSON value (`if attachments:`, `while prev ...`). -/
def truthy : Json → Bool
  | .null => false
  | .bool b => b
  | .num n => n ≠ 0
  | .str s => s ≠ ""
  | .arr xs => !xs.isEmpty
  | .obj kvs => !kvs.isEmpty

/-- Python `d[k]` on a JSON value: `KeyError` when the key is missing,
`TypeError` when the receiver is not a dict. -/
def getItem (j : Json) (k : String) : Except PyErr Json :=
  match j with
  | .obj kvs =>
      match kvs.lookup k with
      | some v => .ok v
      | none => .error (.keyError k)
  | _ => .error .typeError

/-- Python `d.get(k, default)` on a JSON value: `AttributeError` when the
receiver is not a dict. -/
def dictGet (j : Json) (k : String) (dflt : Json) : Except PyErr Json :=
  match j with
  | .obj kvs =>
      match kvs.lookup k with
      | some v => .ok v
      | none => .ok dflt
  | _ => .error .attributeError

/-- Python `k in d.keys()` on a JSON value; `AttributeError` when the
receiver is not a dict. -/
def hasKey (j : Json) (k : String) : Except PyErr Bool :=
  match j with
  | .obj kvs => .ok (kvs.lookup k).isSome
  | _ => .error .attributeError

/-- Python iteration (`for x in j`): a list iterates its elements, a dict
its keys, a string its characters; other values raise `TypeError`. -/
def iterElems (j : Json) : Except PyErr (List Json) :=
  match j with
  | .arr xs => .ok xs
  | .obj kvs => .ok (kvs.map (fun kv => Json.str kv.1))
  | .str s => .ok (s.data.map (fun c => Json.str (String.mk [c])))
  | _ => .error .typeError

/-- Coerce to the string a method like `str.replace` / `str.split` needs;
anything else raises `AttributeError` at the attribute access. -/
def asStrAttr (j : Json) : Except PyErr String :=
  match j with
  | .str s => .ok s
  | _ => .error .attributeError

/-- Coerce to the string an stdlib function argument must be
(`datetime.strptime` raises `TypeError` on non-strings). -/
def asStrArg (j : Json) : Except PyErr String :=
  match j with
  | .str s => .ok s
  | _ => .error .typeError

/-! ## Character/string helpers mirroring the Python string methods -/

/-- The character `{` (written by code point to keep it out of literals). -/
def lbrace : Char := Char.ofNat 123

/-- The character `}` (written by code point to keep it out of literals). -/
def rbrace : Char := Char.ofNat 125

/-- Python `s.split(sep)` for a one-character separator, on char lists:
`''.split('/') = ['']`, `'a//b'.split('/') = ['a', '', 'b']`. -/
def splitCh (sep : Char) : List Char → List (List Char)
  | [] => [[]]
  | c :: cs =>
      if c = sep then [] :: splitCh sep cs
      else
        match splitCh sep cs with
        | t :: ts => (c :: t) :: ts
        | [] => [[c]]

/-- Python `sep.join(parts)` for a one-character separator, on char lists. -/
def joinCh (sep : Char) : List (List Char) → List Char
  | [] => []
  | [p] => p
  | p :: ps => p ++ sep :: joinCh sep ps

/-- Python `s.replace(a, b)` for one-character `a`, `b`. -/
def replaceCh (a b : Char) (cs : List Char) : List Char :=
  cs.map (fun c => if c = a then b else c)

/-- Decimal digit character. -/
def digitCh (d : Nat) : Char := Char.ofNat (48 + d)

/-- Decimal digits of a natural number, most significant first.  The first
argument is fuel; `natDigitsAux (n + 1) n` is always enough. -/
def natDigitsAux : Nat → Nat → List Nat
  | 0, _ => []
  | fuel + 1, n => if n < 10 then [n] else natDigitsAux fuel (n / 10) ++ [n % 10]

/-- Decimal digits of a natural number, most significant first. -/
def natDigits (n : Nat) : List Nat := natDigitsAux (n + 1) n

/-- Decimal notation of a natural number as characters (Python `str(n)`). -/
def natChars (n : Nat) : List Char := (natDigits n).map digitCh

/-- Decimal notation of an integer as characters (Python `str(n)`). -/
def intChars (n : Int) : List Char :=
  if n < 0 then '-' :: natChars (-n).toNat else natChars n.toNat

/-! ## Model of `json.dumps(v, indent=4)` (as called by `save_json`) -/

/-- Lower-case hexadecimal digit character. -/
def hexDigitCh (d : Nat) : Char :=
  if d < 10 then Char.ofNat (48 + d) else Char.ofNat (87 + d)

/-- Four-digit lower-case hexadecimal rendering of `n % 0x10000`. -/
def hex4 (n : Nat) : List Char :=
  [hexDigitCh (n / 4096 % 16), hexDigitCh (n / 256 % 16),
   hexDigitCh (n / 16 % 16), hexDigitCh (n % 16)]

/-- The `\uXXXX` hex-digit tail of the escape of a non-ASCII or control
character: one four-digit group below `0x10000`, a surrogate pair above. -/
def uEscTail (c : Char) : List Char :=
  if c.toNat < 0x10000 then hex4 c.toNat
  else hex4 (0xd800 + (c.toNat - 0x10000) / 0x400) ++
       '\\' :: 'u' :: hex4 (0xdc00 + (c.toNat - 0x10000) % 0x400)

/-- The escape `json.dumps` (with its default `ensure_ascii=True`) applies
to one character of a string: quote and backslash get two-character
escapes, other non-printable-ASCII characters become `\uXXXX` (a surrogate
pair for code points above `0xFFFF`), and printable ASCII is copied. -/
def escChar (c : Char) : List Char :=
  if c = '"' then ['\\', '"']
  else if c = '\\' then ['\\', '\\']
  else if c.toNat < 0x20 ∨ 0x7f ≤ c.toNat then '\\' :: 'u' :: uEscTail c
  else [c]

/-- The body of a JSON string literal for `s` (without the quotes). -/
def escChars (cs : List Char) : List Char := cs.flatMap escChar

/-- `n` spaces. -/
def spacesN (n : Nat) : List Char := List.replicate n ' '

/-- One printed `"key": ` prefix of an object field. -/
def ppKey (k : String) : List Char := '"' :: escChars k.data ++ ['"', ':', ' ']

mutual

/-- Model of `json.dumps(v, indent=4)`: the characters printed for `v` at
current indentation `ind`. -/
def ppVal (ind : Nat) : Json → List Char
  | .null => "null".data
  | .bool b => (if b then "true" else "false").data
  | .num n => intChars n
  | .str s => '"' :: escChars s.data ++ ['"']
  | .arr [] => ['[', ']']
  | .arr (x :: xs) =>
      '[' :: '\n' :: spacesN (ind + 4) ++ ppVal (ind + 4) x ++
        ppElemsTail (ind + 4) xs ++ '\n' :: spacesN ind ++ [']']
  | .obj [] => [lbrace, rbrace]
  | .obj ((k, v) :: kvs) =>
      lbrace :: '\n' :: spacesN (ind + 4) ++ ppKey k ++ ppVal (ind + 4) v ++
        ppFieldsTail (ind + 4) kvs ++ '\n' :: spacesN ind ++ [rbrace]

/-- Second and later array elements, each preceded by `,\n` and indentation. -/
def ppElemsTail (ind : Nat) : List Json → List Char
  | [] => []
  | x :: xs => ',' :: '\n' :: spacesN ind ++ ppVal ind x ++ ppElemsTail ind xs

/-- Second and later object fields, each preceded by `,\n` and indentation. -/
def ppFieldsTail (ind : Nat) : List (String × Json) → List Char
  | [] => []
  | (k, v) :: kvs =>
      ',' :: '\n' :: spacesN ind ++ ppKey k ++ ppVal ind v ++ ppFieldsTail ind kvs

end

/-- Model of `json.dumps(v, indent=4)` as a string. -/
def dumps (v : Json) : String := String.mk (ppVal 0 v)

example : dumps (.arr [.num 1, .str "a"]) = "[\n    1,\n    \"a\"\n]" := rfl

example : dumps (.obj [("k", .null)]) = "\x7b\n    \"k\": null\n\x7d" := rfl

/-! ## Model of `json.loads` (as called by `load_json`) -/

/-- JSON whitespace. -/
def isWsCh (c : Char) : Bool := c = ' ' || c = '\n' || c = '\t' || c = '\r'

/-- Drop leading JSON whitespace. -/
def skipWs : List Char → List Char
  | [] => []
  | c :: cs => if isWsCh c then skipWs cs else c :: cs

/-- Decimal digit test. -/
def isDigitCh (c : Char) : Bool := 48 ≤ c.toNat && c.toNat ≤ 57

/-- Hexadecimal digit value (`0-9`, `a-f`, `A-F`). -/
def hexVal (c : Char) : Option Nat :=
  if 48 ≤ c.toNat ∧ c.toNat ≤ 57 then some (c.toNat - 48)
  else if 97 ≤ c.toNat ∧ c.toNat ≤ 102 then some (c.toNat - 87)
  else if 65 ≤ c.toNat ∧ c.toNat ≤ 70 then some (c.toNat - 55)
  else none

/-- Read exactly four hexadecimal digits. -/
def parseHex4 : List Char → Option (Nat × List Char)
  | a :: b :: c :: d :: rest =>
      match hexVal a, hexVal b, hexVal c, hexVal d with
      | some x1, some x2, some x3, some x4 =>
          some (x1 * 4096 + x2 * 256 + x3 * 16 + x4, rest)
      | _, _, _, _ => none
  | _ => none

/-- The single-character escapes of JSON strings. -/
def escUn (e : Char) : Option Char :=
  if e = '"' then some '"'
  else if e = '\\' then some '\\'
  else if e = '/' then some '/'
  else if e = 'b' then some (Char.ofNat 8)
  else if e = 'f' then some (Char.ofNat 12)
  else if e = 'n' then some '\n'
  else if e = 'r' then some '\r'
  else if e = 't' then some '\t'
  else none

/-- Decode the low-surrogate half `\uXXXX` following a high surrogate `h`,
combining the pair into one code point as `json.loads` does. -/
def decodeLow (h : Nat) : List Char → Option (Char × List Char)
  | b1 :: b2 :: cs3 =>
      if b1 = '\\' ∧ b2 = 'u' then
        (parseHex4 cs3).bind fun lc =>
          if 0xdc00 ≤ lc.1 ∧ lc.1 < 0xe000 then
            some (Char.ofNat (0x10000 + (h - 0xd800) * 0x400 + (lc.1 - 0xdc00)), lc.2)
          else none
      else none
  | _ => none

/-- Decode one `uXXXX` hex group after a `\u` introducer, combining a
surrogate pair into one code point as `json.loads` does.  Not recursive. -/
def decodeU (cs : List Char) : Option (Char × List Char) :=
  (parseHex4 cs).bind fun hc =>
    if hc.1 < 0xd800 ∨ 0xe000 ≤ hc.1 then some (Char.ofNat hc.1, hc.2)
    else if hc.1 < 0xdc00 then decodeLow hc.1 hc.2
    else none

/-- Parse the body of a JSON string literal up to and including the closing
quote, decoding escapes (and surrogate pairs, which `json.loads` combines).
The first argument is fuel (one unit per produced character suffices). -/
def parseStrContent : Nat → List Char → Option (List Char × List Char)
  | 0, _ => none
  | _ + 1, [] => none
  | fuel + 1, c :: cs =>
    if c = '"' then some ([], cs)
    else if c = '\\' then
      match cs with
      | [] => none
      | e :: cs' =>
        if e = 'u' then
          match decodeU cs' with
          | none => none
          | some (ch, cs2) =>
              (parseStrContent fuel cs2).map (fun pr => (ch :: pr.1, pr.2))
        else
          match escUn e with
          | none => none
          | some c' =>
              (parseStrContent fuel cs').map (fun pr => (c' :: pr.1, pr.2))
    else if c.toNat < 0x20 then none
    else (parseStrContent fuel cs).map (fun pr => (c :: pr.1, pr.2))

/-- Read a run of decimal digits into an accumulator. -/
def parseDigits (acc : Nat) : List Char → Nat × List Char
  | [] => (acc, [])
  | c :: cs =>
      if isDigitCh c then parseDigits (acc * 10 + (c.toNat - 48)) cs
      else (acc, c :: cs)

mutual

/-- Parse one JSON value after skipping whitespace.  Fuel-driven; `none`
covers both malformed input and fuel exhaustion. -/
def parseVal : Nat → List Char → Option (Json × List Char)
  | 0, _ => none
  | fuel + 1, cs =>
    match skipWs cs with
    | [] => none
    | c :: rest =>
      if c = 'n' then
        match rest with
        | 'u' :: 'l' :: 'l' :: r => some (.null, r)
        | _ => none
      else if c = 't' then
        match rest with
        | 'r' :: 'u' :: 'e' :: r => some (.bool true, r)
        | _ => none
      else if c = 'f' then
        match rest with
        | 'a' :: 'l' :: 's' :: 'e' :: r => some (.bool false, r)
        | _ => none
      else if c = '"' then
        match parseStrContent fuel rest with
        | some (content, r) => some (.str (String.mk content), r)
        | none => none
      else if c = '[' then
        match skipWs rest with
        | [] => none
        | d :: r =>
          if d = ']' then some (.arr [], r)
          else
            match parseVal fuel (d :: r) with
            | none => none
            | some (v, r1) =>
              match parseArrTail fuel r1 with
              | none => none
              | some (vs, r2) => some (.arr (v :: vs), r2)
      else if c = lbrace then
        match skipWs rest with
        | [] => none
        | d :: r =>
          if d = rbrace then some (.obj [], r)
          else
            match parseField fuel (d :: r) with
            | none => none
            | some (kv, r1) =>
              match parseObjTail fuel r1 with
              | none => none
              | some (kvs, r2) => some (.obj (kv :: kvs), r2)
      else if c = '-' then
        match rest with
        | d :: _ =>
          if isDigitCh d then
            let pr := parseDigits 0 rest
            some (.num (-(pr.1 : Int)), pr.2)
          else none
        | [] => none
      else if isDigitCh c then
        let pr := parseDigits 0 (c :: rest)
        some (.num (pr.1 : Int), pr.2)
      else none

/-- Parse array elements after the first: `, value ... ]`. -/
def parseArrTail : Nat → List Char → Option (List Json × List Char)
  | 0, _ => none
  | fuel + 1, cs =>
    match skipWs cs with
    | [] => none
    | c :: rest =>
      if c = ']' then some ([], rest)
      else if c = ',' then
        match parseVal fuel rest with
        | none => none
        | some (v, r1) =>
          match parseArrTail fuel r1 with
          | none => none
          | some (vs, r2) => some (v :: vs, r2)
      else none

/-- Parse one `"key": value` field. -/
def parseField : Nat → List Char → Option ((String × Json) × List Char)
  | 0, _ => none
  | fuel + 1, cs =>
    match skipWs cs with
    | [] => none
    | c :: rest =>
      if c = '"' then
        match parseStrContent fuel rest with
        | none => none
        | some (k, r1) =>
          match skipWs r1 with
          | [] => none
          | d :: r2 =>
            if d = ':' then
              match parseVal fuel r2 with
              | none => none
              | some (v, r3) => some ((String.mk k, v), r3)
            else none
      else none

/-- Parse object fields after the first: `, "key": value ... and closing brace`. -/
def parseObjTail : Nat → List Char → Option (List (String × Json) × List Char)
  | 0, _ => none
  | fuel + 1, cs =>
    match skipWs cs with
    | [] => none
    | c :: rest =>
      if c = rbrace then some ([], rest)
      else if c = ',' then
        match parseField fuel rest with
        | none => none
        | some (kv, r1) =>
          match parseObjTail fuel r1 with
          | none => none
          | some (kvs, r2) => some (kv :: kvs, r2)
      else none

end

/-- Model of `json.loads`: parse one value and require only whitespace to
remain.  `none` models the `ValueError` Python raises on malformed text. -/
def loads (s : String) : Option Json :=
  match parseVal (s.data.length + 1) s.data with
  | some (v, r) => if skipWs r = [] then some v else none
  | none => none

example : loads "[\n    1,\n    \"a\"\n]" = some (.arr [.num 1, .str "a"]) := rfl

example : loads (dumps (.obj [("k", .arr [.null, .num (-7), .str "x\ny"])])) =
    some (.obj [("k", .arr [.null, .num (-7), .str "x\ny"])]) := rfl

/-! ## Round-trip lemmas: primitives -/

/-- Rebuilding a character from its code point is the identity. -/
theorem charOfNat_toNat (c : Char) : Char.ofNat c.toNat = c := by
  rcases c with ⟨val, valid⟩
  simp [Char.ofNat, Char.toNat, valid]
  apply Char.eq_of_val_eq
  simp [Char.ofNatAux]
  rcases val with ⟨⟨n, hn⟩⟩
  rfl

/-- Code point of a character built from a small code point. -/
theorem toNat_charOfNat {n : Nat} (h : n < 0xd800) : (Char.ofNat n).toNat = n := by
  have hv : n.isValidChar := Or.inl h
  simp [Char.ofNat, hv, Char.ofNatAux, Char.toNat]
  rfl

/-- A character's code point avoids the surrogate range and is below
`0x110000`. -/
theorem char_toNat_valid (c : Char) :
    c.toNat < 0xd800 ∨ (0xe000 ≤ c.toNat ∧ c.toNat < 0x110000) := by
  rcases c with ⟨val, valid⟩
  exact valid

/-- Hexadecimal digits decode what `hexDigitCh` encodes. -/
theorem hexVal_hexDigitCh : ∀ d, d < 16 → hexVal (hexDigitCh d) = some d := by decide

/-- `parseHex4` inverts `hex4` on four-digit values. -/
theorem parseHex4_hex4 (n : Nat) (h : n < 0x10000) (rest : List Char) :
    parseHex4 (hex4 n ++ rest) = some (n, rest) := by
  have h1 : n / 4096 % 16 < 16 := Nat.mod_lt _ (by norm_num)
  have h2 : n / 256 % 16 < 16 := Nat.mod_lt _ (by norm_num)
  have h3 : n / 16 % 16 < 16 := Nat.mod_lt _ (by norm_num)
  have h4 : n % 16 < 16 := Nat.mod_lt _ (by norm_num)
  simp only [hex4, List.cons_append, List.nil_append, parseHex4,
    hexVal_hexDigitCh _ h1, hexVal_hexDigitCh _ h2,
    hexVal_hexDigitCh _ h3, hexVal_hexDigitCh _ h4]
  congr 1
  congr 1
  omega

/-- Digit characters decode their digit. -/
theorem toNat_digitCh {d : Nat} (h : d < 10) : (digitCh d).toNat = 48 + d := by
  simp [digitCh, toNat_charOfNat (by omega : 48 + d < 0xd800)]

/-- Digit characters pass `isDigitCh`. -/
theorem isDigitCh_digitCh {d : Nat} (h : d < 10) : isDigitCh (digitCh d) = true := by
  simp [isDigitCh, toNat_digitCh h]
  omega

/-- The spec of `natDigitsAux` under sufficient fuel. -/
theorem natDigitsAux_spec :
    ∀ fuel n, n < fuel →
      (∀ d ∈ natDigitsAux fuel n, d < 10) ∧ natDigitsAux fuel n ≠ [] ∧
      ∀ acc, List.foldl (fun a d => a * 10 + d) acc (natDigitsAux fuel n) =
        acc * 10 ^ (natDigitsAux fuel n).length + n := by
  intro fuel
  induction fuel with
  | zero => omega
  | succ f ih =>
    intro n hn
    by_cases hsmall : n < 10
    · refine ⟨?_, ?_, ?_⟩
      · intro d hd
        simp [natDigitsAux, hsmall] at hd
        omega
      · simp [natDigitsAux, hsmall]
      · intro acc
        simp [natDigitsAux, hsmall]
    · have hdiv : n / 10 < f := by
        have := Nat.div_lt_self (by omega : 0 < n) (by norm_num : 1 < 10)
        omega
      obtain ⟨hlt, hne, hfold⟩ := ih (n / 10) hdiv
      refine ⟨?_, ?_, ?_⟩
      · intro d hd
        simp [natDigitsAux, hsmall] at hd
        rcases hd with hd | hd
        · exact hlt d hd
        · subst hd; exact Nat.mod_lt _ (by norm_num)
      · simp [natDigitsAux, hsmall]
      · intro acc
        simp only [natDigitsAux, hsmall, if_false, List.foldl_append, List.foldl_cons,
          List.foldl_nil, List.length_append, List.length_cons, List.length_nil, hfold]
        rw [pow_succ]
        have := Nat.div_add_mod n 10
        ring_nf
        omega

/-- The digits of `n` are digits, nonempty, and re-fold to `n`. -/
theorem natDigits_spec (n : Nat) :
    (∀ d ∈ natDigits n, d < 10) ∧ natDigits n ≠ [] ∧
    List.foldl (fun a d => a * 10 + d) 0 (natDigits n) = n := by
  obtain ⟨h1, h2, h3⟩ := natDigitsAux_spec (n + 1) n (by omega)
  exact ⟨h1, h2, by simpa using h3 0⟩

/-- There is no digit at the start of `rest` (so a digit run ends there). -/
def okRestB : List Char → Bool
  | [] => true
  | c :: _ => !isDigitCh c

/-- `parseDigits` consumes exactly an encoded digit run. -/
theorem parseDigits_map (ds : List Nat) :
    ∀ acc rest, (∀ d ∈ ds, d < 10) → okRestB rest = true →
      parseDigits acc (ds.map digitCh ++ rest) =
        (List.foldl (fun a d => a * 10 + d) acc ds, rest) := by
  induction ds with
  | nil =>
    intro acc rest _ hrest
    match rest with
    | [] => rfl
    | c :: cs =>
      simp [okRestB] at hrest
      simp [parseDigits, hrest]
  | cons d ds ih =>
    intro acc rest hds hrest
    have hd : d < 10 := hds d (by simp)
    simp only [List.map_cons, List.cons_append, parseDigits, isDigitCh_digitCh hd, if_true,
      toNat_digitCh hd]
    have : 48 + d - 48 = d := by omega
    rw [this]
    exact ih _ rest (fun x hx => hds x (by simp [hx])) hrest

/-- `decodeU` decodes exactly the hex tail `uEscTail` encodes, for any
character. -/
theorem decodeU_uEscTail (c : Char) (rest : List Char) :
    decodeU (uEscTail c ++ rest) = some (c, rest) := by
  have hval := char_toNat_valid c
  by_cases hbmp : c.toNat < 0x10000
  · have hnotsur : c.toNat < 0xd800 ∨ 0xe000 ≤ c.toNat := by omega
    rw [decodeU, uEscTail, if_pos hbmp, parseHex4_hex4 c.toNat hbmp rest]
    simp [hnotsur, charOfNat_toNat]
  · have hhi : c.toNat < 0x110000 := by omega
    have hdivlt : (c.toNat - 0x10000) / 0x400 < 0x400 := by omega
    have hmodlt : (c.toNat - 0x10000) % 0x400 < 0x400 := Nat.mod_lt _ (by norm_num)
    have hhi16 : 0xd800 + (c.toNat - 0x10000) / 0x400 < 0x10000 := by omega
    have hlo16 : 0xdc00 + (c.toNat - 0x10000) % 0x400 < 0x10000 := by omega
    have hc1 : ¬(0xd800 + (c.toNat - 0x10000) / 0x400 < 0xd800 ∨
        0xe000 ≤ 0xd800 + (c.toNat - 0x10000) / 0x400) := by omega
    have hc2 : 0xd800 + (c.toNat - 0x10000) / 0x400 < 0xdc00 := by omega
    have hc3 : 0xdc00 ≤ 0xdc00 + (c.toNat - 0x10000) % 0x400 ∧
        0xdc00 + (c.toNat - 0x10000) % 0x400 < 0xe000 := by omega
    rw [decodeU, uEscTail, if_neg hbmp, List.append_assoc, List.cons_append,
      List.cons_append, parseHex4_hex4 _ hhi16]
    rw [Option.some_bind]
    rw [if_neg hc1, if_pos hc2, decodeLow, if_pos (And.intro rfl rfl),
      parseHex4_hex4 _ hlo16, Option.some_bind, if_pos hc3]
    have hcomb2 : 0x10000 + (0xd800 + (c.toNat - 0x10000) / 0x400 - 0xd800) * 0x400 +
        (0xdc00 + (c.toNat - 0x10000) % 0x400 - 0xdc00) = c.toNat := by
      have := Nat.div_add_mod (c.toNat - 0x10000) 0x400
      omega
    rw [hcomb2, charOfNat_toNat]

/-- `parseStrContent` decodes exactly what `escChars` encodes. -/
theorem parseStr_escChars (cs : List Char) :
    ∀ fuel rest, cs.length + 1 ≤ fuel →
      parseStrContent fuel (escChars cs ++ '"' :: rest) = some (cs, rest) := by
  induction cs with
  | nil =>
    intro fuel rest hfuel
    cases fuel with
    | zero => omega
    | succ f => simp [escChars, parseStrContent]
  | cons c cs ih =>
    intro fuel rest hfuel
    cases fuel with
    | zero => simp at hfuel
    | succ f =>
      have hih := ih f rest (by simp at hfuel ⊢; omega)
      have hesc : escChars (c :: cs) = escChar c ++ escChars cs := by
        simp [escChars]
      rw [hesc, List.append_assoc]
      by_cases hq : c = '"'
      · subst hq
        simp [escChar, parseStrContent, escUn, hih]
      · by_cases hb : c = '\\'
        · subst hb
          simp [escChar, parseStrContent, escUn, hih]
        · by_cases hrange : c.toNat < 0x20 ∨ 0x7f ≤ c.toNat
          · simp only [escChar, if_neg hq, if_neg hb, if_pos hrange, List.cons_append,
              List.append_assoc]
            simp only [parseStrContent, if_neg (by decide : ¬('\\' = '"')), if_pos rfl]
            rw [decodeU_uEscTail c (escChars cs ++ '"' :: rest)]
            simp [hih]
          · have h20 : ¬(c.toNat < 0x20) := by omega
            simp only [escChar, if_neg hq, if_neg hb, if_neg hrange, List.cons_append,
              List.nil_append]
            simp only [parseStrContent, if_neg hq, if_neg hb, if_neg h20, hih,
              Option.map_some']

/-! ## Round-trip lemmas: whitespace and sizes -/

/-- `skipWs` drops any all-whitespace prefix. -/
theorem skipWs_append (ws : List Char) (cs : List Char)
    (h : ∀ c ∈ ws, isWsCh c = true) : skipWs (ws ++ cs) = skipWs cs := by
  induction ws with
  | nil => rfl
  | cons w ws ih =>
    have hw : isWsCh w = true := h w (by simp)
    simp only [List.cons_append, skipWs, hw, if_true]
    exact ih (fun c hc => h c (by simp [hc]))

/-- `skipWs` stops at a non-whitespace character. -/
theorem skipWs_nonws {c : Char} (cs : List Char) (h : isWsCh c = false) :
    skipWs (c :: cs) = c :: cs := by
  simp [skipWs, h]

/-- A newline-plus-indentation block is all whitespace. -/
theorem nl_spaces_ws (n : Nat) : ∀ c ∈ '\n' :: spacesN n, isWsCh c = true := by
  intro c hc
  rcases List.mem_cons.mp hc with hc | hc
  · subst hc; rfl
  · have : c = ' ' := List.eq_of_mem_replicate hc
    subst this; rfl

/-- Skipping whitespace after a printed newline-indent block. -/
theorem skipWs_nl_spaces (n : Nat) (cs : List Char) :
    skipWs ('\n' :: spacesN n ++ cs) = skipWs cs :=
  skipWs_append _ cs (nl_spaces_ws n)

mutual

/-- Fuel bound sufficient for `parseVal` to re-read the printed form. -/
def sizeJ : Json → Nat
  | .null => 1
  | .bool _ => 1
  | .num _ => 1
  | .str s => s.data.length + 2
  | .arr xs => 1 + sizeElems xs
  | .obj kvs => 1 + sizeFields kvs

/-- Fuel bound for `parseArrTail` on the printed element tail. -/
def sizeElems : List Json → Nat
  | [] => 1
  | x :: xs => 1 + sizeJ x + sizeElems xs

/-- Fuel bound for `parseObjTail` on the printed field tail. -/
def sizeFields : List (String × Json) → Nat
  | [] => 1
  | (k, v) :: kvs => 2 + k.data.length + sizeJ v + sizeFields kvs

end

/-- Every character escape is nonempty. -/
theorem escChar_ne_nil (c : Char) : escChar c ≠ [] := by
  unfold escChar
  split
  · simp
  · split
    · simp
    · split <;> simp

/-- Escaping cannot shrink a string. -/
theorem length_le_escChars (cs : List Char) : cs.length ≤ (escChars cs).length := by
  induction cs with
  | nil => simp [escChars]
  | cons c cs ih =>
    have h1 : 1 ≤ (escChar c).length :=
      Nat.one_le_iff_ne_zero.mpr (by simpa using escChar_ne_nil c)
    simp only [escChars, List.flatMap_cons, List.length_append]
    have heq : escChars cs = cs.flatMap escChar := rfl
    rw [← heq]
    simp only [List.length_cons]
    omega

/-- `natChars` is never empty. -/
theorem natChars_ne_nil (n : Nat) : natChars n ≠ [] := by
  obtain ⟨-, h2, -⟩ := natDigits_spec n
  simp [natChars]
  exact h2

/-- `intChars` is never empty. -/
theorem intChars_ne_nil (n : Int) : intChars n ≠ [] := by
  unfold intChars
  split
  · simp
  · exact natChars_ne_nil _

/-- Rebuilding a string from its characters is the identity. -/
theorem stringMk_data : ∀ s : String, String.mk s.data = s
  | ⟨_⟩ => rfl

/-- Sizes are positive. -/
theorem one_le_sizeJ : ∀ v, 1 ≤ sizeJ v := by
  intro v
  cases v <;> simp [sizeJ]

/-- Element sizes are positive. -/
theorem one_le_sizeElems : ∀ xs, 1 ≤ sizeElems xs := by
  intro xs
  cases xs <;> simp [sizeElems] <;> omega

/-- Field sizes are positive. -/
theorem one_le_sizeFields : ∀ kvs, 1 ≤ sizeFields kvs := by
  intro kvs
  rcases kvs with _ | ⟨⟨k, v⟩, kvs⟩ <;> simp [sizeFields] <;> omega

/-- A parser entry point ignores a leading whitespace block. -/
theorem parseVal_ws_skip (f : Nat) (ws cs : List Char)
    (h : ∀ c ∈ ws, isWsCh c = true) : parseVal f (ws ++ cs) = parseVal f cs := by
  cases f with
  | zero => rfl
  | succ f => simp only [parseVal, skipWs_append ws cs h]

/-- `parseField` ignores a leading whitespace block. -/
theorem parseField_ws_skip (f : Nat) (ws cs : List Char)
    (h : ∀ c ∈ ws, isWsCh c = true) : parseField f (ws ++ cs) = parseField f cs := by
  cases f with
  | zero => rfl
  | succ f => simp only [parseField, skipWs_append ws cs h]

/-- The facts needed to route a digit character through `parseVal`. -/
theorem digitCh_facts : ∀ d, d < 10 →
    isWsCh (digitCh d) = false ∧ isDigitCh (digitCh d) = true ∧
    digitCh d ≠ 'n' ∧ digitCh d ≠ 't' ∧ digitCh d ≠ 'f' ∧ digitCh d ≠ '"' ∧
    digitCh d ≠ '[' ∧ digitCh d ≠ lbrace ∧ digitCh d ≠ '-' ∧ digitCh d ≠ ']' := by
  decide

/-- Every printed value starts with a significant character that is not a
closing bracket. -/
theorem ppVal_head (ind : Nat) (v : Json) :
    ∃ hd tl, ppVal ind v = hd :: tl ∧ isWsCh hd = false ∧ hd ≠ ']' := by
  cases v with
  | null => exact ⟨'n', _, rfl, rfl, by decide⟩
  | bool b => cases b with
    | true => exact ⟨'t', _, rfl, rfl, by decide⟩
    | false => exact ⟨'f', _, rfl, rfl, by decide⟩
  | num n =>
    by_cases hn : n < 0
    · exact ⟨'-', natChars (-n).toNat, by simp [ppVal, intChars, hn], rfl, by decide⟩
    · obtain ⟨d0, ds0, h0⟩ := List.exists_cons_of_ne_nil ((natDigits_spec n.toNat).2.1)
      have hd0lt : d0 < 10 := (natDigits_spec n.toNat).1 d0 (by rw [h0]; simp)
      obtain ⟨hws, -, -, -, -, -, -, -, -, hne⟩ := digitCh_facts d0 hd0lt
      refine ⟨digitCh d0, ds0.map digitCh, ?_, hws, hne⟩
      simp [ppVal, intChars, hn, natChars, h0]
  | str s => exact ⟨'"', _, rfl, rfl, by decide⟩
  | arr xs => cases xs with
    | nil => exact ⟨'[', _, rfl, rfl, by decide⟩
    | cons x xs => exact ⟨'[', _, rfl, rfl, by decide⟩
  | obj kvs =>
    rcases kvs with _ | ⟨⟨k, v⟩, kvs⟩
    · exact ⟨lbrace, _, rfl, rfl, by decide⟩
    · exact ⟨lbrace, _, rfl, rfl, by decide⟩

/-- Spaces are skipped. -/
theorem skipWs_spaces (n : Nat) (cs : List Char) :
    skipWs (spacesN n ++ cs) = skipWs cs :=
  skipWs_append _ cs (fun c hc => by rw [List.eq_of_mem_replicate hc]; rfl)

/-- Replicated spaces are skipped (the shape left after partial reduction). -/
theorem skipWs_replicate (n : Nat) (cs : List Char) :
    skipWs (List.replicate n ' ' ++ cs) = skipWs cs :=
  skipWs_append _ cs (fun c hc => by rw [List.eq_of_mem_replicate hc]; rfl)

/-- The printed element tail followed by the closing of an array starts with
a non-digit. -/
theorem okRestB_elems (ind ind2 : Nat) (xs : List Json) (rest : List Char) :
    okRestB (ppElemsTail ind xs ++ '\n' :: (spacesN ind2 ++ ']' :: rest)) = true := by
  cases xs <;> simp [ppElemsTail, okRestB, isDigitCh] <;> decide

/-- The printed field tail followed by the closing of an object starts with
a non-digit. -/
theorem okRestB_fields (ind ind2 : Nat) (kvs : List (String × Json)) (rest : List Char) :
    okRestB (ppFieldsTail ind kvs ++ '\n' :: (spacesN ind2 ++ rbrace :: rest)) = true := by
  rcases kvs with _ | ⟨⟨k, v⟩, kvs⟩ <;> simp [ppFieldsTail, okRestB, isDigitCh] <;> decide

/-- The joint induction: the fueled parser re-reads every printed value,
printed array tail, printed object tail, and printed field. -/
theorem parse_pp_master : ∀ f : Nat,
    (∀ v ind rest, sizeJ v ≤ f → okRestB rest = true →
        parseVal f (ppVal ind v ++ rest) = some (v, rest)) ∧
    (∀ xs ind ind2 rest, sizeElems xs ≤ f →
        parseArrTail f (ppElemsTail ind xs ++ '\n' :: (spacesN ind2 ++ ']' :: rest)) =
          some (xs, rest)) ∧
    (∀ kvs ind ind2 rest, sizeFields kvs ≤ f →
        parseObjTail f (ppFieldsTail ind kvs ++ '\n' :: (spacesN ind2 ++ rbrace :: rest)) =
          some (kvs, rest)) ∧
    (∀ k v ind rest, k.data.length + 1 + sizeJ v ≤ f → okRestB rest = true →
        parseField f (ppKey k ++ (ppVal ind v ++ rest)) = some ((k, v), rest)) := by
  intro f
  induction f with
  | zero =>
    refine ⟨?_, ?_, ?_, ?_⟩
    · intro v _ _ h _; exact absurd h (by have := one_le_sizeJ v; omega)
    · intro xs _ _ _ h; exact absurd h (by have := one_le_sizeElems xs; omega)
    · intro kvs _ _ _ h; exact absurd h (by have := one_le_sizeFields kvs; omega)
    · intro k v _ _ h _; exact absurd h (by have := one_le_sizeJ v; omega)
  | succ f ih =>
    obtain ⟨ih1, ih2, ih3, ih4⟩ := ih
    refine ⟨?_, ?_, ?_, ?_⟩
    · -- parseVal on a printed value
      intro v ind rest hsz hrest
      cases v with
      | null => simp [ppVal, parseVal, skipWs, isWsCh]
      | bool b => cases b <;> simp [ppVal, parseVal, skipWs, isWsCh]
      | str s =>
        have hlen : s.data.length + 1 ≤ f := by
          simp only [sizeJ] at hsz; omega
        have hps := parseStr_escChars s.data f rest hlen
        simp only [ppVal, List.cons_append, List.append_assoc, List.singleton_append]
        simp [parseVal, skipWs, isWsCh, hps, stringMk_data]
      | num n =>
        rcases Int.lt_or_le n 0 with hn | hn
        · obtain ⟨hd1, hne, hfold⟩ := natDigits_spec (-n).toNat
          obtain ⟨d0, ds0, h0⟩ := List.exists_cons_of_ne_nil hne
          have hd0lt : d0 < 10 := hd1 d0 (by rw [h0]; simp)
          obtain ⟨-, hdig, -, -, -, -, -, -, -, -⟩ := digitCh_facts d0 hd0lt
          have hpd := parseDigits_map (natDigits (-n).toNat) 0 rest hd1 hrest
          rw [h0, List.map_cons, List.cons_append] at hpd
          have hfold2 : List.foldl (fun a d => a * 10 + d) 0 (d0 :: ds0) = (-n).toNat := by
            rw [← h0]; exact hfold
          simp only [ppVal, intChars, if_pos hn, natChars, h0, List.map_cons,
            List.cons_append]
          simp +decide only [parseVal, skipWs, isWsCh, hdig, hpd, hfold2, if_true,
            if_false, Option.some.injEq, Prod.mk.injEq, Json.num.injEq, and_true]
          omega
        · obtain ⟨hd1, hne, hfold⟩ := natDigits_spec n.toNat
          obtain ⟨d0, ds0, h0⟩ := List.exists_cons_of_ne_nil hne
          have hd0lt : d0 < 10 := hd1 d0 (by rw [h0]; simp)
          obtain ⟨hws0, hdig, hn1, hn2, hn3, hn4, hn5, hn6, hn7, -⟩ :=
            digitCh_facts d0 hd0lt
          have hpd := parseDigits_map (natDigits n.toNat) 0 rest hd1 hrest
          rw [h0, List.map_cons, List.cons_append] at hpd
          have hfold2 : List.foldl (fun a d => a * 10 + d) 0 (d0 :: ds0) = n.toNat := by
            rw [← h0]; exact hfold
          simp only [ppVal, intChars, if_neg (by omega : ¬n < 0), natChars, h0,
            List.map_cons, List.cons_append]
          simp +decide only [parseVal, skipWs, hws0, Bool.false_eq_true, if_false,
            if_neg hn1, if_neg hn2, if_neg hn3, if_neg hn4, if_neg hn5, if_neg hn6,
            if_neg hn7, hdig, if_true, hpd, hfold2, Option.some.injEq, Prod.mk.injEq,
            Json.num.injEq, and_true]
          omega
      | arr xs =>
        cases xs with
        | nil => simp [ppVal, parseVal, skipWs, isWsCh]
        | cons x xs =>
          have hszx : sizeJ x ≤ f := by
            simp only [sizeJ, sizeElems] at hsz
            have := one_le_sizeElems xs; omega
          have hsze : sizeElems xs ≤ f := by
            simp only [sizeJ, sizeElems] at hsz
            have := one_le_sizeJ x; omega
          obtain ⟨hd, tl, hx, hws, hne⟩ := ppVal_head (ind + 4) x
          have hih1 := ih1 x (ind + 4)
            (ppElemsTail (ind + 4) xs ++ '\n' :: (spacesN ind ++ ']' :: rest)) hszx
            (okRestB_elems (ind + 4) ind xs rest)
          have hih2 := ih2 xs (ind + 4) ind rest hsze
          simp only [List.cons_append, List.append_assoc, List.nil_append] at hih1 hih2
          have hparse : parseVal f
              (hd :: (tl ++ (ppElemsTail (ind + 4) xs ++ '\n' :: (spacesN ind ++ ']' :: rest)))) =
              some (x, ppElemsTail (ind + 4) xs ++ '\n' :: (spacesN ind ++ ']' :: rest)) := by
            rw [← List.cons_append, ← hx]
            exact hih1
          have h3 : skipWs
              (ppVal (ind + 4) x ++ (ppElemsTail (ind + 4) xs ++ '\n' :: (spacesN ind ++ ']' :: rest))) =
              hd :: (tl ++ (ppElemsTail (ind + 4) xs ++ '\n' :: (spacesN ind ++ ']' :: rest))) := by
            rw [hx, List.cons_append]
            exact skipWs_nonws _ hws
          have hne2 : (hd = ']') = False := by simp [hne]
          simp only [ppVal, List.cons_append, List.append_assoc, List.nil_append]
          simp +decide only [parseVal, skipWs, isWsCh, if_true, if_false,
            List.append_eq, skipWs_replicate, h3, hne2, hparse, hih2]
      | obj kvs =>
        rcases kvs with _ | ⟨⟨k, v⟩, kvs⟩
        · simp [ppVal, parseVal, skipWs, isWsCh, lbrace, rbrace]
        · have hszv : k.data.length + 1 + sizeJ v ≤ f := by
            simp only [sizeJ, sizeFields] at hsz
            have := one_le_sizeFields kvs; omega
          have hszf : sizeFields kvs ≤ f := by
            simp only [sizeJ, sizeFields] at hsz
            have := one_le_sizeJ v; omega
          have hih4 := ih4 k v (ind + 4)
            (ppFieldsTail (ind + 4) kvs ++ '\n' :: (spacesN ind ++ rbrace :: rest)) hszv
            (okRestB_fields (ind + 4) ind kvs rest)
          have hih3 := ih3 kvs (ind + 4) ind rest hszf
          simp only [ppKey, List.cons_append, List.append_assoc, List.nil_append]
            at hih4 hih3
          simp only [ppVal, ppKey, List.cons_append, List.append_assoc, List.nil_append]
          simp +decide only [parseVal, skipWs, isWsCh, if_true, if_false,
            List.append_eq, skipWs_replicate, hih4, hih3]
    · -- parseArrTail on a printed element tail
      intro xs ind ind2 rest hsz
      cases xs with
      | nil =>
        simp +decide only [ppElemsTail, List.nil_append, parseArrTail, skipWs, isWsCh,
          if_true, if_false, List.append_eq, skipWs_replicate, skipWs_spaces]
      | cons y ys =>
        have hszy : sizeJ y ≤ f := by
          simp only [sizeElems] at hsz
          have := one_le_sizeElems ys; omega
        have hsze : sizeElems ys ≤ f := by
          simp only [sizeElems] at hsz
          have := one_le_sizeJ y; omega
        have hih1 := ih1 y ind
          (ppElemsTail ind ys ++ '\n' :: (spacesN ind2 ++ ']' :: rest)) hszy
          (okRestB_elems ind ind2 ys rest)
        have hih2 := ih2 ys ind ind2 rest hsze
        have hv : parseVal f (('\n' :: spacesN ind) ++ (ppVal ind y ++
            (ppElemsTail ind ys ++ '\n' :: (spacesN ind2 ++ ']' :: rest)))) =
            some (y, ppElemsTail ind ys ++ '\n' :: (spacesN ind2 ++ ']' :: rest)) := by
          rw [parseVal_ws_skip f _ _ (nl_spaces_ws ind)]
          exact hih1
        simp only [List.cons_append, List.append_assoc, List.nil_append] at hv hih2
        simp only [ppElemsTail, List.cons_append, List.append_assoc, List.nil_append]
        simp +decide only [parseArrTail, skipWs, isWsCh, if_true, if_false,
          List.append_eq, skipWs_replicate, hv, hih2]
    · -- parseObjTail on a printed field tail
      intro kvs ind ind2 rest hsz
      rcases kvs with _ | ⟨⟨k, v⟩, kvs⟩
      · simp +decide only [ppFieldsTail, List.nil_append, parseObjTail, skipWs, isWsCh,
          if_true, if_false, List.append_eq, skipWs_replicate, skipWs_spaces]
      · have hszv : k.data.length + 1 + sizeJ v ≤ f := by
          simp only [sizeFields] at hsz
          have := one_le_sizeFields kvs; omega
        have hszf : sizeFields kvs ≤ f := by
          simp only [sizeFields] at hsz
          have := one_le_sizeJ v; omega
        have hih4 := ih4 k v ind
          (ppFieldsTail ind kvs ++ '\n' :: (spacesN ind2 ++ rbrace :: rest)) hszv
          (okRestB_fields ind ind2 kvs rest)
        have hih3 := ih3 kvs ind ind2 rest hszf
        have hfld : parseField f (('\n' :: spacesN ind) ++ (ppKey k ++ (ppVal ind v ++
            (ppFieldsTail ind kvs ++ '\n' :: (spacesN ind2 ++ rbrace :: rest))))) =
            some ((k, v), ppFieldsTail ind kvs ++ '\n' :: (spacesN ind2 ++ rbrace :: rest)) := by
          rw [parseField_ws_skip f _ _ (nl_spaces_ws ind)]
          exact hih4
        simp only [ppKey, List.cons_append, List.append_assoc, List.nil_append] at hfld hih3
        simp only [ppFieldsTail, ppKey, List.cons_append, List.append_assoc, List.nil_append]
        simp +decide only [parseObjTail, skipWs, isWsCh, if_true, if_false,
          List.append_eq, skipWs_replicate, hfld, hih3]
    · -- parseField on a printed field
      intro k v ind rest hsz hrest
      have hszk : k.data.length + 1 ≤ f := by
        have := one_le_sizeJ v; omega
      have hszv : sizeJ v ≤ f := by omega
      have hps := parseStr_escChars k.data f
        (':' :: ' ' :: (ppVal ind v ++ rest)) hszk
      have hv : parseVal f (' ' :: (ppVal ind v ++ rest)) = some (v, rest) := by
        rw [show (' ' :: (ppVal ind v ++ rest)) = [' '] ++ (ppVal ind v ++ rest) from rfl]
        rw [parseVal_ws_skip f _ _ (by intro c hc; simp at hc; subst hc; rfl)]
        exact ih1 v ind rest hszv hrest
      simp only [ppKey, List.cons_append, List.append_assoc, List.nil_append]
      simp +decide only [parseField, skipWs, isWsCh, if_true, if_false,
        List.append_eq, skipWs_replicate, hps, hv, stringMk_data]

/-- The fuel bound of a value is covered by the length of its printed form
(so `loads`, whose fuel is the input length plus one, always has enough). -/
theorem size_le_len_master : ∀ f : Nat,
    (∀ v ind, sizeJ v ≤ f → sizeJ v ≤ (ppVal ind v).length) ∧
    (∀ xs ind, sizeElems xs ≤ f → sizeElems xs ≤ (ppElemsTail ind xs).length + 2) ∧
    (∀ kvs ind, sizeFields kvs ≤ f →
        sizeFields kvs ≤ (ppFieldsTail ind kvs).length + 2) := by
  intro f
  induction f with
  | zero =>
    refine ⟨?_, ?_, ?_⟩
    · intro v _ h; exact absurd h (by have := one_le_sizeJ v; omega)
    · intro xs _ h; exact absurd h (by have := one_le_sizeElems xs; omega)
    · intro kvs _ h; exact absurd h (by have := one_le_sizeFields kvs; omega)
  | succ f ih =>
    obtain ⟨ih1, ih2, ih3⟩ := ih
    refine ⟨?_, ?_, ?_⟩
    · intro v ind hsz
      cases v with
      | null => simp [ppVal, sizeJ]
      | bool b => cases b <;> simp [ppVal, sizeJ]
      | num n =>
        have := List.length_pos.mpr (intChars_ne_nil n)
        simp only [ppVal, sizeJ]
        omega
      | str s =>
        have h1 := length_le_escChars s.data
        have h2 : s.length = s.data.length := rfl
        simp only [ppVal, sizeJ, List.length_cons, List.length_append]
        simp
        omega
      | arr xs =>
        cases xs with
        | nil => simp [ppVal, sizeJ, sizeElems]
        | cons x xs =>
          have h1 : sizeJ x ≤ (ppVal (ind + 4) x).length := by
            apply ih1
            simp only [sizeJ, sizeElems] at hsz
            have := one_le_sizeElems xs; omega
          have h2 : sizeElems xs ≤ (ppElemsTail (ind + 4) xs).length + 2 := by
            apply ih2
            simp only [sizeJ, sizeElems] at hsz
            have := one_le_sizeJ x; omega
          simp only [sizeJ, sizeElems, ppVal, List.length_cons, List.length_append,
            spacesN, List.length_replicate]
          omega
      | obj kvs =>
        rcases kvs with _ | ⟨⟨k, v⟩, kvs⟩
        · simp [ppVal, sizeJ, sizeFields]
        · have h1 : sizeJ v ≤ (ppVal (ind + 4) v).length := by
            apply ih1
            simp only [sizeJ, sizeFields] at hsz
            have := one_le_sizeFields kvs; omega
          have h2 : sizeFields kvs ≤ (ppFieldsTail (ind + 4) kvs).length + 2 := by
            apply ih3
            simp only [sizeJ, sizeFields] at hsz
            have := one_le_sizeJ v; omega
          have h3 := length_le_escChars k.data
          have h4 : k.length = k.data.length := rfl
          simp only [sizeJ, sizeFields, ppVal, ppKey, List.length_cons,
            List.length_append, spacesN, List.length_replicate]
          omega
    · intro xs ind hsz
      cases xs with
      | nil => simp [ppElemsTail, sizeElems]
      | cons y ys =>
        have h1 : sizeJ y ≤ (ppVal ind y).length := by
          apply ih1
          simp only [sizeElems] at hsz
          have := one_le_sizeElems ys; omega
        have h2 : sizeElems ys ≤ (ppElemsTail ind ys).length + 2 := by
          apply ih2
          simp only [sizeElems] at hsz
          have := one_le_sizeJ y; omega
        simp only [sizeElems, ppElemsTail, List.length_cons, List.length_append,
          spacesN, List.length_replicate]
        omega
    · intro kvs ind hsz
      rcases kvs with _ | ⟨⟨k, v⟩, kvs⟩
      · simp [ppFieldsTail, sizeFields]
      · have h1 : sizeJ v ≤ (ppVal ind v).length := by
          apply ih1
          simp only [sizeFields] at hsz
          have := one_le_sizeFields kvs; omega
        have h2 : sizeFields kvs ≤ (ppFieldsTail ind kvs).length + 2 := by
          apply ih3
          simp only [sizeFields] at hsz
          have := one_le_sizeJ v; omega
        have h3 := length_le_escChars k.data
        have h4 : k.length = k.data.length := rfl
        simp only [sizeFields, ppFieldsTail, ppKey, List.length_cons,
          List.length_append, spacesN, List.length_replicate]
        omega

/-- Re-reading a pretty-printed value yields the value back: the round trip
at the heart of snapshot persistence. -/
theorem loads_dumps (v : Json) : loads (dumps v) = some v := by
  have hb : sizeJ v ≤ (ppVal 0 v).length + 1 := by
    have := (size_le_len_master (sizeJ v)).1 v 0 le_rfl
    omega
  have h := (parse_pp_master ((ppVal 0 v).length + 1)).1 v 0 [] hb rfl
  rw [List.append_nil] at h
  unfold loads dumps
  simp only [String.data]
  rw [h]
  rfl

/-! ## Model of `datetime.strptime` / `strftime` and comparisons -/

/-- A Python `datetime.datetime` value. -/
structure PyDateTime where
  year : Nat
  month : Nat
  day : Nat
  hour : Nat
  minute : Nat
  second : Nat
  microsecond : Nat
  deriving DecidableEq, Repr

/-- Python `datetime` comparison `a < b`: lexicographic on the fields. -/
def dtLt (a b : PyDateTime) : Bool :=
  decide (a.year < b.year) || (decide (a.year = b.year) && (
  decide (a.month < b.month) || (decide (a.month = b.month) && (
  decide (a.day < b.day) || (decide (a.day = b.day) && (
  decide (a.hour < b.hour) || (decide (a.hour = b.hour) && (
  decide (a.minute < b.minute) || (decide (a.minute = b.minute) && (
  decide (a.second < b.second) || (decide (a.second = b.second) &&
  decide (a.microsecond < b.microsecond))))))))))))

/-- All characters are decimal digits and there is at least one. -/
def allDigits (cs : List Char) : Bool := !cs.isEmpty && cs.all isDigitCh

/-- The value of a run of decimal digits. -/
def digitsVal (cs : List Char) : Nat :=
  cs.foldl (fun a c => a * 10 + (c.toNat - 48)) 0

/-- Gregorian leap-year rule (as `datetime` uses). -/
def isLeap (y : Nat) : Bool :=
  (decide (y % 4 = 0) && decide (y % 100 ≠ 0)) || decide (y % 400 = 0)

/-- Days in a month (as `datetime` validates). -/
def daysInMonth (y m : Nat) : Nat :=
  if m = 2 then (if isLeap y then 29 else 28)
  else if m = 4 ∨ m = 6 ∨ m = 9 ∨ m = 11 then 30
  else 31

/-- Construct a `datetime`, with the range validation the constructor
performs (`ValueError` outside the ranges). -/
def mkDate (y m d h mi s us : Nat) : Except PyErr PyDateTime :=
  if 1 ≤ y ∧ y ≤ 9999 ∧ 1 ≤ m ∧ m ≤ 12 ∧ 1 ≤ d ∧ d ≤ daysInMonth y m ∧
      h ≤ 23 ∧ mi ≤ 59 ∧ s ≤ 59 ∧ us ≤ 999999 then
    .ok ⟨y, m, d, h, mi, s, us⟩
  else .error .valueError

/-- `datetime.strptime(ts, '%Y-%m-%dT%H:%M:%S.%fZ')`: the format used for
item timestamps.  `%f` takes one to six digits, zero-padded on the right to
microseconds.  Any shape mismatch raises `ValueError`. -/
def strptimeISO (ts : String) : Except PyErr PyDateTime :=
  match splitCh 'T' ts.data with
  | [d, t] =>
    match splitCh '-' d with
    | [ys, ms, ds] =>
      if t.getLast? = some 'Z' then
        match splitCh ':' t.dropLast with
        | [hs, mins, secfrac] =>
          match splitCh '.' secfrac with
          | [ss, fs] =>
            if allDigits ys ∧ ys.length = 4 ∧
                allDigits ms ∧ ms.length ≤ 2 ∧ allDigits ds ∧ ds.length ≤ 2 ∧
                allDigits hs ∧ hs.length ≤ 2 ∧ allDigits mins ∧ mins.length ≤ 2 ∧
                allDigits ss ∧ ss.length ≤ 2 ∧ allDigits fs ∧ fs.length ≤ 6 then
              mkDate (digitsVal ys) (digitsVal ms) (digitsVal ds) (digitsVal hs)
                (digitsVal mins) (digitsVal ss) (digitsVal fs * 10 ^ (6 - fs.length))
            else .error .valueError
          | _ => .error .valueError
        | _ => .error .valueError
      else .error .valueError
    | _ => .error .valueError
  | _ => .error .valueError

/-- Lower-case an ASCII letter. -/
def lowerCh (c : Char) : Char :=
  if 65 ≤ c.toNat ∧ c.toNat ≤ 90 then Char.ofNat (c.toNat + 32) else c

/-- The month number of a `%b` month abbreviation (case-insensitive). -/
def monthAbbr (cs : List Char) : Option Nat :=
  let l := cs.map lowerCh
  if l = ['j', 'a', 'n'] then some 1
  else if l = ['f', 'e', 'b'] then some 2
  else if l = ['m', 'a', 'r'] then some 3
  else if l = ['a', 'p', 'r'] then some 4
  else if l = ['m', 'a', 'y'] then some 5
  else if l = ['j', 'u', 'n'] then some 6
  else if l = ['j', 'u', 'l'] then some 7
  else if l = ['a', 'u', 'g'] then some 8
  else if l = ['s', 'e', 'p'] then some 9
  else if l = ['o', 'c', 't'] then some 10
  else if l = ['n', 'o', 'v'] then some 11
  else if l = ['d', 'e', 'c'] then some 12
  else none

/-- `datetime.strptime(s, '%d-%b-%Y')`: the format of the cutoff date. -/
def strptimeDMY (s : String) : Except PyErr PyDateTime :=
  match splitCh '-' s.data with
  | [ds, bs, ys] =>
    match monthAbbr bs with
    | some m =>
      if allDigits ds ∧ ds.length ≤ 2 ∧ allDigits ys ∧ ys.length = 4 then
        mkDate (digitsVal ys) m (digitsVal ds) 0 0 0 0
      else .error .valueError
    | none => .error .valueError
  | _ => .error .valueError

/-- Two-digit zero-padded decimal. -/
def pad2 (n : Nat) : List Char :=
  if n < 10 then '0' :: natChars n else natChars n

/-- Four-digit zero-padded decimal. -/
def pad4 (n : Nat) : List Char :=
  List.replicate (4 - (natChars n).length) '0' ++ natChars n

/-- `dt.strftime('%m-%d-%Y')`: the date prefix of destination filenames. -/
def strftimeMDY (dt : PyDateTime) : String :=
  String.mk (pad2 dt.month ++ '-' :: pad2 dt.day ++ '-' :: pad4 dt.year)

example : strptimeISO "2020-05-10T00:00:00.000Z" =
    .ok ⟨2020, 5, 10, 0, 0, 0, 0⟩ := rfl

example : strptimeDMY "1-Jul-2018" = .ok ⟨2018, 7, 1, 0, 0, 0, 0⟩ := rfl

example : (strptimeISO "2018-08-01T00:00:00.000Z").map
    (fun dt => dtLt ⟨2018, 7, 1, 0, 0, 0, 0⟩ dt) = .ok true := rfl

example : strftimeMDY ⟨2020, 5, 10, 0, 0, 0, 0⟩ = "05-10-2020" := rfl

/-! ## The script's functions -/

/-- The script's `DESTINATION` global (the output root). -/
def DESTINATION : String := "./classdojo_output"

/-- The script's `AFTER_DATE` global (the cutoff). -/
def AFTER_DATE : String := "1-Jul-2018"

/-- `get_name_from_url`: split the URL on `/`, join the parts from index 3
on with `_`, and replace `-` with `_`. -/
def get_name_from_url (url : String) : String :=
  String.mk (replaceCh '-' '_' (joinCh '_' ((splitCh '/' url.data).drop 3)))

example : get_name_from_url "https://host/bucket/x/y/photo-1.jpg" =
    "bucket_x_y_photo_1.jpg" := rfl

mutual

/-- Python `str()` of a JSON value (used by the f-string building the
destination path when a metadata filename is not a string).  Container
rendering approximates `repr` (no escaping inside quotes). -/
def pyStr : Json → String
  | .null => "None"
  | .bool true => "True"
  | .bool false => "False"
  | .num n => String.mk (intChars n)
  | .str s => s
  | .arr xs => "[" ++ pyStrElems xs ++ "]"
  | .obj kvs => "\x7b" ++ pyStrFields kvs ++ "\x7d"

/-- `repr`-style rendering of one value inside a container. -/
def pyRepr : Json → String
  | .null => "None"
  | .bool true => "True"
  | .bool false => "False"
  | .num n => String.mk (intChars n)
  | .str s => "'" ++ s ++ "'"
  | .arr xs => "[" ++ pyStrElems xs ++ "]"
  | .obj kvs => "\x7b" ++ pyStrFields kvs ++ "\x7d"

/-- Comma-separated container elements. -/
def pyStrElems : List Json → String
  | [] => ""
  | [x] => pyRepr x
  | x :: xs => pyRepr x ++ ", " ++ pyStrElems xs

/-- Comma-separated dict entries. -/
def pyStrFields : List (String × Json) → String
  | [] => ""
  | [(k, v)] => "'" ++ k ++ "': " ++ pyRepr v
  | (k, v) :: kvs => "'" ++ k ++ "': " ++ pyRepr v ++ ", " ++ pyStrFields kvs

end

/-- The truthiness test Python applies to `after_date` (`if after_date:` and
`not after_date`). -/
def afterTruthy : Option String → Bool
  | none => false
  | some s => !s.isEmpty

/-- The cutoff parse at the head of `get_urls`
(`dt = datetime.strptime(after_date, '%d-%b-%Y')`, only when truthy). -/
def cutoffDT (after_date : Option String) : Except PyErr (Option PyDateTime) :=
  if afterTruthy after_date then
    match after_date with
    | some s => (strptimeDMY s).map some
    | none => .ok none
  else .ok none

/-- One attachment inside the loop body of `get_urls`: pick the metadata
filename when present, else derive it from the URL, and build
`(url, DEST/group/dt_str-filename)`. -/
def processAttachment (DEST group dt_str : String) (attachment : Json) :
    Except PyErr (Json × String) := do
  let url ← getItem attachment "path"
  let hasMeta ← hasKey attachment "metadata"
  let filename ←
    if hasMeta then do
      let md ← getItem attachment "metadata"
      let hasFn ← hasKey md "filename"
      if hasFn then
        getItem md "filename"
      else do
        let s ← asStrAttr url
        pure (Json.str (get_name_from_url s))
    else do
      let s ← asStrAttr url
      pure (Json.str (get_name_from_url s))
  pure (url, DEST ++ "/" ++ group ++ "/" ++ dt_str ++ "-" ++ pyStr filename)

/-- The attachment loop of `get_urls` (appends in order). -/
def processAttachments (DEST group dt_str : String) :
    List Json → Except PyErr (List (Json × String))
  | [] => .ok []
  | a :: rest => do
      let t ← processAttachment DEST group dt_str a
      let ts ← processAttachments DEST group dt_str rest
      pure (t :: ts)

/-- One item of the `get_urls` loop: parse `item['time']`, format the date,
apply the cutoff guard (`not after_date or dt_item > dt`), then collect the
attachments of a kept item. -/
def processItem (DEST : String) (dt? : Option PyDateTime) (item : Json) :
    Except PyErr (List (Json × String)) := do
  let timeJ ← getItem item "time"
  let ts ← asStrArg timeJ
  let dt_item ← strptimeISO ts
  let dt_str := strftimeMDY dt_item
  if (match dt? with | none => true | some dt => dtLt dt dt_item) then do
    let contents ← getItem item "contents"
    let attachmentsJ ← dictGet contents "attachments" (Json.obj [])
    if truthy attachmentsJ then do
      let hsJ ← getItem item "headerSubtext"
      let hs ← asStrAttr hsJ
      let group := String.mk (replaceCh '/' '_' hs.data)
      let atts ← iterElems attachmentsJ
      processAttachments DEST group dt_str atts
    else pure []
  else pure []

/-- The item loop of `get_urls`. -/
def get_urlsGo (DEST : String) (dt? : Option PyDateTime) :
    List Json → Except PyErr (List (Json × String))
  | [] => .ok []
  | item :: rest => do
      let ts ← processItem DEST dt? item
      let more ← get_urlsGo DEST dt? rest
      pure (ts ++ more)

/-- `get_urls(items, after_date)`: the Resolver.  `DEST` is the value of the
`DESTINATION` global the f-string reads. -/
def get_urls (DEST : String) (items : List Json) (after_date : Option String) :
    Except PyErr (List (Json × String)) := do
  let dt? ← cutoffDT after_date
  get_urlsGo DEST dt? items

/-! ## The Traverser: `get_items` and `scrape` -/

/-- The cursor extraction
`data.get('_links', dict()).get('prev', dict()).get('href')`. -/
def prevHref (data : Json) : Except PyErr Json := do
  let links ← dictGet data "_links" (Json.obj [])
  let prev ← dictGet links "prev" (Json.obj [])
  dictGet prev "href" Json.null

/-- `get_items(url)`: fetch and decode one page through the `world` oracle
(`none` is a network or JSON-decode failure), read the cursor, then read
`data['_items']` (a missing key raises `KeyError`).  A non-string URL fails
the request. -/
def get_items (world : String → Option Json) (url : Json) :
    Except PyErr (Json × Json) :=
  match url with
  | .str u =>
      match world u with
      | none => .error .networkError
      | some data => do
          let prev ← prevHref data
          let its ← getItem data "_items"
          pure (its, prev)
  | _ => .error .typeError

/-- The receiver of `.extend` must be a list. -/
def asArrAttr : Json → Except PyErr (List Json)
  | .arr xs => .ok xs
  | _ => .error .attributeError

/-- `items.extend(new_items)` as a pure list append. -/
def extendItems (items new : Json) : Except PyErr Json := do
  let xs ← asArrAttr items
  let ys ← iterElems new
  pure (Json.arr (xs ++ ys))

/-- Python `feed_url != prev` for a string against a JSON value. -/
def strNeJson (s : String) (j : Json) : Bool :=
  match j with
  | .str t => decide (s ≠ t)
  | _ => true

/-- The `while prev and feed_url != prev` guard. -/
def scrapeCont (feed_url : String) (prev : Json) : Bool :=
  truthy prev && strNeJson feed_url prev

/-- The `while` loop of `scrape`, with fuel; carries the accumulated items,
the current cursor, and the number of fetches made so far.  `none` is fuel
exhaustion (the loop still running). -/
def scrapeLoop (world : String → Option Json) (feed_url : String) :
    Nat → Json → Json → Nat → Option (Except PyErr (Json × Nat))
  | fuel, items, prev, fetched =>
    if scrapeCont feed_url prev then
      match fuel with
      | 0 => none
      | fuel + 1 =>
        match get_items world prev with
        | .error e => some (.error e)
        | .ok (new, prev2) =>
          match extendItems items new with
          | .error e => some (.error e)
          | .ok items2 => scrapeLoop world feed_url fuel items2 prev2 (fetched + 1)
    else some (.ok (items, fetched))

/-- `scrape(feed_url, filename)`: the full traversal.  On success the result
carries the accumulated items, the total number of fetches, and the text
written to the snapshot file by `save_json` before the return. -/
def scrape (world : String → Option Json) (feed_url : String) (fuel : Nat) :
    Option (Except PyErr (Json × Nat × String)) :=
  match get_items world (.str feed_url) with
  | .error e => some (.error e)
  | .ok (items, prev) =>
    (scrapeLoop world feed_url fuel items prev 1).map
      (fun r => r.map (fun pr => (pr.1, pr.2, dumps pr.1)))

/-- The per-page view of the same traversal: the list of item arrays of the
pages the loop would fetch after the head page. -/
def pagesLoop (world : String → Option Json) (feed_url : String) :
    Nat → Json → Option (Except PyErr (List (List Json)))
  | fuel, prev =>
    if scrapeCont feed_url prev then
      match fuel with
      | 0 => none
      | fuel + 1 =>
        match get_items world prev with
        | .error e => some (.error e)
        | .ok (new, prev2) =>
          match iterElems new with
          | .error e => some (.error e)
          | .ok ys => (pagesLoop world feed_url fuel prev2).map (·.map (ys :: ·))
    else some (.ok [])

/-- The per-page view of a whole traversal, head page first. -/
def fetchedPages (world : String → Option Json) (feed_url : String) (fuel : Nat) :
    Option (Except PyErr (List (List Json))) :=
  match get_items world (.str feed_url) with
  | .error e => some (.error e)
  | .ok (items, prev) =>
    match items with
    | .arr xs => (pagesLoop world feed_url fuel prev).map (·.map (xs :: ·))
    | _ => some (.error .attributeError)

/-- The chain of cursors from `prev` reaches the loop's stop condition
within `k` further successful fetches. -/
def stopsBy (world : String → Option Json) (feed_url : String) :
    Nat → Json → Bool
  | 0, prev => !scrapeCont feed_url prev
  | k + 1, prev =>
    !scrapeCont feed_url prev ||
      (match get_items world prev with
       | .ok pr => stopsBy world feed_url k pr.2
       | .error _ => false)

/-! ## The Downloader: `download` and `download_urls` -/

/-- `download(url, filename)`: create the directory, `open(filename, 'wb')`
(which creates/truncates the file before any network traffic), then fetch
and write the body.  Returns the filesystem, the number of fetch attempts
made (always one: there is no retry), and the propagated error if the fetch
raised. -/
def download (fetch : String → Option (List Nat)) (url dest : String)
    (fs : String → Option (List Nat)) :
    (String → Option (List Nat)) × Nat × Option PyErr :=
  let fs1 := fun p => if p = dest then some [] else fs p
  match fetch url with
  | none => (fs1, 1, some PyErr.networkError)
  | some body => (fun p => if p = dest then some body else fs p, 1, none)

/-- The progress loop of `download_urls`: `for _ in as_completed(futures):
pbar.update(1)`.  The argument is the results of the futures in completion
order (any order, any outcomes); the loop never inspects them.  Returns the
successive values of the progress counter. -/
def progressLoop : List (Except PyErr Unit) → Nat → List Nat
  | [], _ => []
  | _ :: rest, c => (c + 1) :: progressLoop rest (c + 1)

/-- The successive progress-counter values of one `download_urls` run. -/
def download_urls_counters (results : List (Except PyErr Unit)) : List Nat :=
  progressLoop results 0

/-! ## Snapshot persistence: `save_json` and `load_json` -/

/-- `save_json(json_content, filename)`: the text written to the file. -/
def save_json (json_content : Json) : String := dumps json_content

/-- `load_json(filename)`: parse the file text (`ValueError` on junk). -/
def load_json (text : String) : Except PyErr Json :=
  match loads text with
  | some v => .ok v
  | none => .error .valueError

/-- The `main` path that reuses a snapshot: load the file, then run the
Resolver over the loaded items. -/
def resolveLoaded (DEST : String) (after_date : Option String) (text : String) :
    Except PyErr (List (Json × String)) := do
  let j ← load_json text
  let items ← iterElems j
  get_urls DEST items after_date

/-! ## Concrete fixtures used by the claim witnesses -/

/-- An attachment with a metadata filename. -/
def att1 : Json :=
  .obj [("path", .str "u"), ("metadata", .obj [("filename", .str "img.png")])]

/-- The path-construction example item. -/
def itemC5 : Json := .obj [("time", .str "2020-05-10T00:00:00.000Z"),
  ("headerSubtext", .str "Room A/B"),
  ("contents", .obj [("attachments", .arr [att1])])]

/-- An item with a timestamp `t` and one attachment whose name derives from
its URL. -/
def mkItem (t : String) : Json := .obj [("time", .str t),
  ("headerSubtext", .str "G"),
  ("contents", .obj [("attachments", .arr [.obj [("path", .str ("https://a/b/c/" ++ t))]])])]

/-- A feed page whose cursor points at `p2`. -/
def page1 : Json := .obj [("_items", .arr [.num 1, .num 2]),
  ("_links", .obj [("prev", .obj [("href", .str "p2")])])]

/-- A feed page whose cursor points back at the head (circular feed). -/
def page2 : Json := .obj [("_items", .arr [.num 3]),
  ("_links", .obj [("prev", .obj [("href", .str "feed")])])]

/-- A two-page circular world. -/
def world2 : String → Option Json := fun u =>
  if u = "feed" then some page1 else if u = "p2" then some page2 else none

/-! ## The claims -/

/-- C1, counterexample: the claim's example is wrong about the code.  For
`https://host/bucket/x/y/photo-1.jpg` the derived filename computed by
`get_name_from_url` is `bucket_x_y_photo_1.jpg` (the split components from
index 3 on include the bucket segment), not the claimed `y_photo_1.jpg`. -/
theorem C1_counterexample :
    get_name_from_url "https://host/bucket/x/y/photo-1.jpg" =
      "bucket_x_y_photo_1.jpg" ∧
    get_name_from_url "https://host/bucket/x/y/photo-1.jpg" ≠ "y_photo_1.jpg" := by
  constructor
  · rfl
  · decide

/-- C1, amended: for every attachment of a kept item the destination
filename is `metadata.filename` when that key is present, and otherwise
(no `metadata` key at all, or a `metadata` object without a `filename` key)
the URL split on `/` from the 4th component on (index 3: everything after
the host, bucket included), joined with underscores, hyphens replaced; the
example URL yields `bucket_x_y_photo_1.jpg`. -/
theorem C1_amended (DEST group dt_str : String) :
    (∀ kvs p mdkvs f', kvs.lookup "path" = some p →
        kvs.lookup "metadata" = some (Json.obj mdkvs) →
        mdkvs.lookup "filename" = some f' →
        processAttachment DEST group dt_str (.obj kvs) =
          .ok (p, DEST ++ "/" ++ group ++ "/" ++ dt_str ++ "-" ++ pyStr f')) ∧
    (∀ kvs u, kvs.lookup "path" = some (Json.str u) →
        kvs.lookup "metadata" = none →
        processAttachment DEST group dt_str (.obj kvs) =
          .ok (.str u, DEST ++ "/" ++ group ++ "/" ++ dt_str ++ "-" ++
            get_name_from_url u)) ∧
    (∀ kvs u mdkvs, kvs.lookup "path" = some (Json.str u) →
        kvs.lookup "metadata" = some (Json.obj mdkvs) →
        mdkvs.lookup "filename" = none →
        processAttachment DEST group dt_str (.obj kvs) =
          .ok (.str u, DEST ++ "/" ++ group ++ "/" ++ dt_str ++ "-" ++
            get_name_from_url u)) ∧
    get_name_from_url "https://host/bucket/x/y/photo-1.jpg" =
      "bucket_x_y_photo_1.jpg" := by
  refine ⟨?_, ?_, ?_, rfl⟩
  · intro kvs p mdkvs f' hp hm hf
    simp [processAttachment, getItem, hasKey, hp, hm, hf, bind, Except.bind, pure,
      Except.pure]
  · intro kvs u hp hm
    simp [processAttachment, getItem, hasKey, asStrAttr, hp, hm, bind, Except.bind,
      pure, Except.pure, pyStr]
  · intro kvs u mdkvs hp hm hf
    simp [processAttachment, getItem, hasKey, asStrAttr, hp, hm, hf, bind,
      Except.bind, pure, Except.pure, pyStr]

/-- C1, witness for the amended claim: one attachment with a metadata
filename, and one whose metadata object lacks the filename key. -/
theorem C1_amended_witness :
    processAttachment "out" "G" "01-01-2020" att1 =
      .ok (.str "u", "out/G/01-01-2020-img.png") ∧
    processAttachment "out" "G" "01-01-2020"
        (.obj [("path", .str "https://host/bucket/x/y/photo-1.jpg"),
               ("metadata", .obj [("contentType", .str "image/jpeg")])]) =
      .ok (.str "https://host/bucket/x/y/photo-1.jpg",
        "out/G/01-01-2020-bucket_x_y_photo_1.jpg") :=
  ⟨(C1_amended "out" "G" "01-01-2020").1
    [("path", .str "u"), ("metadata", .obj [("filename", .str "img.png")])]
    (.str "u") [("filename", .str "img.png")] (.str "img.png") rfl rfl rfl,
   (C1_amended "out" "G" "01-01-2020").2.2.1
    [("path", .str "https://host/bucket/x/y/photo-1.jpg"),
     ("metadata", .obj [("contentType", .str "image/jpeg")])]
    "https://host/bucket/x/y/photo-1.jpg"
    [("contentType", .str "image/jpeg")] rfl rfl rfl⟩

/-- C2: the Resolver keeps exactly the items whose parsed timestamp is
strictly later than the cutoff; with no cutoff every item is kept; and on
the three example timestamps with cutoff `1-Jul-2018` exactly the latter
two contribute tasks. -/
theorem C2_cutoff_filter :
    (∀ DEST s dt items, strptimeDMY s = .ok dt → s ≠ "" →
        get_urls DEST items (some s) = get_urlsGo DEST (some dt) items) ∧
    (∀ DEST items, get_urls DEST items none = get_urlsGo DEST none items) ∧
    (∀ DEST dt kvs ts t, kvs.lookup "time" = some (.str ts) →
        strptimeISO ts = .ok t → dtLt dt t = true →
        processItem DEST (some dt) (.obj kvs) = processItem DEST none (.obj kvs)) ∧
    (∀ DEST dt kvs ts t, kvs.lookup "time" = some (.str ts) →
        strptimeISO ts = .ok t → dtLt dt t = false →
        processItem DEST (some dt) (.obj kvs) = .ok []) ∧
    get_urls "out" [mkItem "2018-01-01T00:00:00.000Z",
        mkItem "2018-08-01T00:00:00.000Z", mkItem "2019-01-01T00:00:00.000Z"]
        (some "1-Jul-2018") =
      .ok [(.str "https://a/b/c/2018-08-01T00:00:00.000Z",
              "out/G/08-01-2018-b_c_2018_08_01T00:00:00.000Z"),
           (.str "https://a/b/c/2019-01-01T00:00:00.000Z",
              "out/G/01-01-2019-b_c_2019_01_01T00:00:00.000Z")] := by
  refine ⟨?_, ?_, ?_, ?_, rfl⟩
  · intro DEST s dt items hdt hs
    have hne : s.isEmpty = false := by
      rw [Bool.eq_false_iff]
      intro hcontr
      exact hs ((String.isEmpty_iff s).mp hcontr)
    simp [get_urls, cutoffDT, afterTruthy, hne, hdt, bind, Except.bind, Except.map]
  · intro DEST items
    simp [get_urls, cutoffDT, afterTruthy, bind, Except.bind]
  · intro DEST dt kvs ts t ht hiso hlt
    simp [processItem, getItem, asStrArg, ht, hiso, hlt, bind, Except.bind]
  · intro DEST dt kvs ts t ht hiso hlt
    simp [processItem, getItem, asStrArg, ht, hiso, hlt, bind, Except.bind, pure,
      Except.pure]

/-- C2, witness: the cutoff string parses and the filter specializes at a
concrete cutoff and item list. -/
theorem C2_witness :
    get_urls "out" [itemC5] (some "1-Jul-2018") =
      get_urlsGo "out" (some ⟨2018, 7, 1, 0, 0, 0, 0⟩) [itemC5] :=
  C2_cutoff_filter.1 "out" "1-Jul-2018" ⟨2018, 7, 1, 0, 0, 0, 0⟩ [itemC5] rfl
    (by decide)

/-- A cursor chain that reaches the stop condition within `k` fetches makes
the loop return one fixed result with any fuel of at least `k`, after at
most `k` further fetches. -/
theorem scrapeLoop_stops (world : String → Option Json) (feed : String) :
    ∀ k prev, stopsBy world feed k prev = true →
      ∀ items n, ∃ r,
        (∀ fuel, k ≤ fuel → scrapeLoop world feed fuel items prev n = some r) ∧
        (∀ its cnt, r = .ok (its, cnt) → cnt ≤ n + k) := by
  intro k
  induction k with
  | zero =>
    intro prev hstop items n
    simp only [stopsBy, Bool.not_eq_true'] at hstop
    refine ⟨.ok (items, n), ?_, ?_⟩
    · intro fuel _
      rw [scrapeLoop.eq_def]
      simp [hstop]
    · rintro its cnt h
      cases h
      omega
  | succ k ih =>
    intro prev hstop items n
    by_cases hc : scrapeCont feed prev
    · simp only [stopsBy, hc, Bool.not_true, Bool.false_or] at hstop
      cases hgi : get_items world prev with
      | error e =>
        rw [hgi] at hstop
        simp at hstop
      | ok pr =>
        rw [hgi] at hstop
        cases hext : extendItems items pr.1 with
        | error e =>
          refine ⟨.error e, ?_, by rintro _ _ ⟨⟩⟩
          intro fuel hf
          cases fuel with
          | zero => omega
          | succ f =>
            rcases pr with ⟨new, prev2⟩
            rw [scrapeLoop.eq_def]
            simp [hc, hgi, hext]
        | ok items2 =>
          obtain ⟨r, hr1, hr2⟩ := ih pr.2 hstop items2 (n + 1)
          refine ⟨r, ?_, ?_⟩
          · intro fuel hf
            cases fuel with
            | zero => omega
            | succ f =>
              rcases pr with ⟨new, prev2⟩
              rw [scrapeLoop.eq_def]
              simp only [hc, if_true, hgi, hext]
              exact hr1 f (by omega)
          · intro its cnt h
            have := hr2 its cnt h
            omega
    · refine ⟨.ok (items, n), ?_, ?_⟩
      · intro fuel _
        rw [scrapeLoop.eq_def]
        simp [hc]
      · rintro its cnt h
        cases h
        omega

/-- C3: when the cursor chain from the head fetch reaches a falsy cursor or
the starting URL within `k` hops, the traversal returns the same result with
any fuel of at least `k` and makes at most `k + 1` fetches in total (never
fetching past the stop point); and the loop stops exactly at the guard: a
null cursor and the starting URL itself stop it immediately. -/
theorem C3_traversal_termination :
    ∀ world feed its prev k,
      get_items world (.str feed) = .ok (its, prev) →
      stopsBy world feed k prev = true →
      (∃ r, (∀ fuel, k ≤ fuel → scrape world feed fuel = some r) ∧
          (∀ its2 cnt txt, r = .ok (its2, cnt, txt) → cnt ≤ k + 1)) ∧
      (∀ fuel items c n, scrapeCont feed c = false →
          scrapeLoop world feed fuel items c n = some (.ok (items, n))) ∧
      scrapeCont feed Json.null = false ∧
      scrapeCont feed (.str feed) = false := by
  intro world feed its prev k hhead hstop
  refine ⟨?_, ?_, rfl, by simp [scrapeCont, truthy, strNeJson]⟩
  · obtain ⟨r, hr1, hr2⟩ := scrapeLoop_stops world feed k prev hstop its 1
    refine ⟨r.map (fun pr => (pr.1, pr.2, dumps pr.1)), ?_, ?_⟩
    · intro fuel hf
      simp [scrape, hhead, hr1 fuel hf]
    · intro its2 cnt txt h
      cases r with
      | error e => simp [Except.map] at h
      | ok pr =>
        have := hr2 pr.1 pr.2 rfl
        simp [Except.map] at h
        omega
  · intro fuel items c n hcont
    rw [scrapeLoop.eq_def]
    simp [hcont]

/-- C3, witness: the two-page circular world stops after revisiting the
head URL, in two fetches. -/
theorem C3_witness :
    (∃ r, (∀ fuel, 1 ≤ fuel → scrape world2 "feed" fuel = some r) ∧
        (∀ its2 cnt txt, r = .ok (its2, cnt, txt) → cnt ≤ 2)) ∧
    (∀ fuel items c n, scrapeCont "feed" c = false →
        scrapeLoop world2 "feed" fuel items c n = some (.ok (items, n))) ∧
    scrapeCont "feed" Json.null = false ∧
    scrapeCont "feed" (.str "feed") = false :=
  C3_traversal_termination world2 "feed" (.arr [.num 1, .num 2]) (.str "p2") 1
    rfl rfl

/-- The item accumulation of the loop is the concatenation of the per-page
item arrays the loop fetches. -/
theorem scrapeLoop_pages (world : String → Option Json) (feed : String) :
    ∀ fuel prev ps acc n,
      pagesLoop world feed fuel prev = some (.ok ps) →
      scrapeLoop world feed fuel (.arr acc) prev n =
        some (.ok (.arr (acc ++ ps.join), n + ps.length)) := by
  intro fuel
  induction fuel with
  | zero =>
    intro prev ps acc n hp
    rw [pagesLoop.eq_def] at hp
    rw [scrapeLoop.eq_def]
    by_cases hc : scrapeCont feed prev
    · simp [hc] at hp
    · simp [hc] at hp ⊢
      subst hp
      simp
  | succ f ih =>
    intro prev ps acc n hp
    rw [pagesLoop.eq_def] at hp
    rw [scrapeLoop.eq_def]
    by_cases hc : scrapeCont feed prev
    · simp only [hc, if_true] at hp ⊢
      cases hgi : get_items world prev with
      | error e =>
        rw [hgi] at hp
        simp at hp
      | ok pr =>
        rw [hgi] at hp
        rcases pr with ⟨new, prev2⟩
        cases hie : iterElems new with
        | error e =>
          simp [hie] at hp
        | ok ys =>
          simp only [hie] at hp
          cases hrec : pagesLoop world feed f prev2 with
          | none => simp [hrec] at hp
          | some w =>
            cases w with
            | error e => simp [hrec, Except.map] at hp
            | ok ps' =>
              simp [hrec, Except.map] at hp
              have hext : extendItems (.arr acc) new = .ok (.arr (acc ++ ys)) := by
                simp [extendItems, asArrAttr, hie, bind, Except.bind, pure, Except.pure]
              simp only [hext]
              rw [ih prev2 ps' (acc ++ ys) (n + 1) hrec, ← hp]
              have harith : n + 1 + ps'.length = n + (ps'.length + 1) := by omega
              simp [harith, List.append_assoc]
    · simp only [hc, if_false] at hp ⊢
      simp at hp
      subst hp
      simp

/-- C4: on a successful traversal, `scrape` returns exactly the head-first
concatenation of the fetched pages' item arrays, its length is the sum of
the page lengths, and the very same list (serialized) is the snapshot text
written before returning. -/
theorem C4_traversal_items :
    ∀ world feed fuel pages,
      fetchedPages world feed fuel = some (.ok pages) →
      scrape world feed fuel =
        some (.ok (.arr pages.join, pages.length, dumps (.arr pages.join))) ∧
      pages.join.length = (pages.map List.length).sum := by
  intro world feed fuel pages hfp
  unfold fetchedPages at hfp
  cases hgi : get_items world (.str feed) with
  | error e =>
    rw [hgi] at hfp
    simp at hfp
  | ok pr =>
    rw [hgi] at hfp
    rcases pr with ⟨items, prev⟩
    cases items with
    | arr xs =>
      simp only at hfp
      cases hrec : pagesLoop world feed fuel prev with
      | none => simp [hrec] at hfp
      | some w =>
        cases w with
        | error e => simp [hrec, Except.map] at hfp
        | ok ps' =>
          simp [hrec, Except.map] at hfp
          constructor
          · have hsc : scrape world feed fuel =
                Option.map (fun r => Except.map (fun pr => (pr.1, pr.2, dumps pr.1)) r)
                  (scrapeLoop world feed fuel (.arr xs) prev 1) := by
              unfold scrape
              rw [hgi]
            rw [hsc, scrapeLoop_pages world feed fuel prev ps' xs 1 hrec, ← hfp]
            have harith : 1 + ps'.length = ps'.length + 1 := by omega
            simp [Except.map, harith]
          · exact (List.length_join pages).symm ▸ rfl
    | null => simp at hfp
    | bool b => simp at hfp
    | num x => simp at hfp
    | str s => simp at hfp
    | obj kvs => simp at hfp

/-- C4, witness: the two-page circular world concatenates head-first. -/
theorem C4_witness :
    scrape world2 "feed" 5 =
      some (.ok (.arr [.num 1, .num 2, .num 3], 2,
        dumps (.arr [.num 1, .num 2, .num 3]))) ∧
    ([[Json.num 1, Json.num 2], [Json.num 3]] : List (List Json)).join.length =
      ([[Json.num 1, Json.num 2], [Json.num 3]].map List.length).sum := by
  have h := C4_traversal_items world2 "feed" 5 [[.num 1, .num 2], [.num 3]] rfl
  exact h

/-- C5: for a kept item with an attachment the destination path is
`<output-root>/<sanitized-group>/<MM-DD-YYYY>-<filename>`, the group being
`headerSubtext` with `/` replaced by `_`, the date the item timestamp at day
granularity; the concrete example yields
`out/Room A_B/05-10-2020-img.png`. -/
theorem C5_path_construction :
    (∀ DEST ts g p f' dtI, strptimeISO ts = .ok dtI →
        processItem DEST none
          (Json.obj [("time", Json.str ts), ("headerSubtext", Json.str g), ("contents", Json.obj [("attachments", Json.arr [Json.obj [("path", p), ("metadata", Json.obj [("filename", Json.str f')])]])])]) =
          .ok [(p, DEST ++ "/" ++ String.mk (replaceCh '/' '_' g.data) ++ "/" ++
            strftimeMDY dtI ++ "-" ++ f')]) ∧
    get_urls "out" [itemC5] none =
      .ok [(.str "u", "out/Room A_B/05-10-2020-img.png")] := by
  refine ⟨?_, rfl⟩
  intro DEST ts g p f' dtI hiso
  simp +decide [processItem, getItem, asStrArg, asStrAttr, hiso, truthy, iterElems,
    processAttachments, processAttachment, hasKey, dictGet, pyStr, List.lookup,
    bind, Except.bind, pure, Except.pure]

/-- C5, witness at the concrete example item. -/
theorem C5_witness :
    processItem "out" none itemC5 =
      .ok [(.str "u", "out/Room A_B/05-10-2020-img.png")] :=
  (C5_path_construction.1 "out" "2020-05-10T00:00:00.000Z" "Room A/B" (.str "u")
    "img.png" ⟨2020, 5, 10, 0, 0, 0, 0⟩ rfl)

/-- C6, counterexample: the claim says a failed fetch leaves no file behind,
but `download` opens the destination in write mode before fetching, so a
failed fetch leaves a zero-byte file at the destination. -/
theorem C6_counterexample :
    (download (fun _ => none) "u" "out/f" (fun _ => none)).1 "out/f" = some [] ∧
    (download (fun _ => none) "u" "out/f" (fun _ => none)).2.2 =
      some PyErr.networkError ∧
    (download (fun _ => none) "u" "out/f" (fun _ => none)).1 "out/f" ≠ none := by
  refine ⟨rfl, rfl, by simp [download]⟩

/-- C6, amended: when the fetch fails the task makes exactly one fetch
attempt (no retry), the error propagates with no record kept, and the
destination path holds a zero-byte file created by opening before the
fetch. -/
theorem C6_amended (fetch : String → Option (List Nat)) (url dest : String)
    (fs : String → Option (List Nat)) (h : fetch url = none) :
    download fetch url dest fs =
      (fun p => if p = dest then some [] else fs p, 1, some PyErr.networkError) ∧
    (download fetch url dest fs).1 dest = some [] := by
  constructor
  · simp [download, h]
  · simp [download, h]

/-- C6, witness for the amended claim at a concrete failing fetch. -/
theorem C6_amended_witness :
    download (fun _ => none) "u" "out/f" (fun _ => none) =
      (fun p => if p = "out/f" then some [] else none, 1, some PyErr.networkError) ∧
    (download (fun _ => none) "u" "out/f" (fun _ => none)).1 "out/f" = some [] :=
  C6_amended (fun _ => none) "u" "out/f" (fun _ => none) rfl

/-- C7: persistence round trip: saving any items list and loading it back is
lossless, and running the Resolver on the reloaded snapshot yields exactly
the tasks of running it on the items directly. -/
theorem C7_snapshot_roundtrip (items : List Json) (DEST : String)
    (after_date : Option String) :
    load_json (save_json (.arr items)) = .ok (.arr items) ∧
    resolveLoaded DEST after_date (save_json (.arr items)) =
      get_urls DEST items after_date := by
  have h : loads (save_json (.arr items)) = some (.arr items) := loads_dumps _
  constructor
  · simp [load_json, h]
  · simp [resolveLoaded, load_json, h, iterElems, bind, Except.bind]

/-- The counter trace ignores the results and is `[c+1, ..., c+N]`. -/
theorem progressLoop_eq (results : List (Except PyErr Unit)) :
    ∀ c, progressLoop results c = List.range' (c + 1) results.length := by
  induction results with
  | nil => intro c; rfl
  | cons r rest ih =>
    intro c
    simp [progressLoop, ih (c + 1), List.range'_succ]

/-- Occurrences of `a` in `range' s n`. -/
theorem count_range' (a : Nat) :
    ∀ n s, List.count a (List.range' s n) =
      if s ≤ a ∧ a < s + n then 1 else 0 := by
  intro n
  induction n with
  | zero =>
    intro s
    rw [if_neg (by omega)]
    simp
  | succ n ih =>
    intro s
    rw [List.range'_succ]
    by_cases h2 : a = s
    · subst h2
      rw [List.count_cons_self, ih (a + 1), if_neg (by omega), if_pos (by omega)]
    · rw [List.count_cons_of_ne h2, ih (s + 1)]
      by_cases h1 : s + 1 ≤ a ∧ a < s + 1 + n
      · rw [if_pos h1, if_pos (by omega)]
      · rw [if_neg h1, if_neg (by omega)]

/-- C8: the progress counter is incremented by exactly one per completed
task irrespective of each task's outcome, increases strictly monotonically
from zero, and hits the total `N` exactly once over the run. -/
theorem C8_progress_counter (results : List (Except PyErr Unit)) :
    download_urls_counters results = List.range' 1 results.length ∧
    (∀ i, i < results.length →
        (download_urls_counters results)[i]? = some (i + 1)) ∧
    List.Chain' (· < ·) (0 :: download_urls_counters results) ∧
    List.count results.length (0 :: download_urls_counters results) = 1 ∧
    (∀ results2 : List (Except PyErr Unit), results2.length = results.length →
        download_urls_counters results2 = download_urls_counters results) := by
  have he : download_urls_counters results = List.range' 1 results.length :=
    progressLoop_eq results 0
  refine ⟨he, ?_, ?_, ?_, ?_⟩
  · intro i hi
    rw [he, List.getElem?_range']
    · simp [Nat.add_comm]
    · exact hi
  · rw [he]
    rw [List.chain'_iff_pairwise]
    constructor
    · intro b hb
      have := List.mem_range'.mp hb
      omega
    · have := List.pairwise_lt_range' 1 results.length 1 (by omega)
      exact this
  · rw [he, List.count_cons, count_range' results.length results.length 1]
    by_cases h0 : results.length = 0
    · simp [h0]
    · rw [if_pos (by omega)]
      have : ¬((0 : Nat) = results.length) := by omega
      simp [this]
  · intro results2 hlen
    have he2 : download_urls_counters results2 = List.range' 1 results2.length :=
      progressLoop_eq results2 0
    rw [he, he2, hlen]

/-- C8, witness: a run with one success and one failure counts `1, 2` and
reaches the total exactly once. -/
theorem C8_witness :
    (download_urls_counters [.ok (), .error .networkError])[1]? = some 2 :=
  (C8_progress_counter [.ok (), .error .networkError]).2.1 1 (by decide)

/-- C9: a response without the `_items` key makes `get_items` raise
`KeyError` (fatal), while an absent `_links`, `_links.prev`, or
`_links.prev.href` is no error: the cursor is null and the traversal ends
cleanly after the single fetch. -/
theorem C9_response_keys :
    (∀ (world : String → Option Json) u kvs h, world u = some (.obj kvs) →
        kvs.lookup "_items" = none → prevHref (.obj kvs) = .ok h →
        get_items world (.str u) = .error (.keyError "_items")) ∧
    (∀ kvs, kvs.lookup "_links" = none → prevHref (.obj kvs) = .ok Json.null) ∧
    (∀ kvs lks, kvs.lookup "_links" = some (.obj lks) → lks.lookup "prev" = none →
        prevHref (.obj kvs) = .ok Json.null) ∧
    (∀ kvs lks pks, kvs.lookup "_links" = some (.obj lks) →
        lks.lookup "prev" = some (.obj pks) → pks.lookup "href" = none →
        prevHref (.obj kvs) = .ok Json.null) ∧
    (∀ (world : String → Option Json) u kvs its, world u = some (.obj kvs) →
        kvs.lookup "_items" = some its → prevHref (.obj kvs) = .ok Json.null →
        get_items world (.str u) = .ok (its, Json.null) ∧
        ∀ fuel, scrape world u fuel = some (.ok (its, 1, dumps its))) := by
  refine ⟨?_, ?_, ?_, ?_, ?_⟩
  · intro world u kvs h hw hit hph
    simp [get_items, hw, hph, getItem, hit, bind, Except.bind]
  · intro kvs hlk
    simp [prevHref, dictGet, hlk, bind, Except.bind]
  · intro kvs lks hlk hpv
    simp [prevHref, dictGet, hlk, hpv, bind, Except.bind]
  · intro kvs lks pks hlk hpv hhr
    simp [prevHref, dictGet, hlk, hpv, hhr, bind, Except.bind]
  · intro world u kvs its hw hit hph
    have hg : get_items world (.str u) = .ok (its, Json.null) := by
      simp [get_items, hw, hph, getItem, hit, bind, Except.bind, pure, Except.pure]
    refine ⟨hg, ?_⟩
    intro fuel
    have hsc : scrape world u fuel =
        Option.map (fun r => Except.map (fun pr => (pr.1, pr.2, dumps pr.1)) r)
          (scrapeLoop world u fuel its Json.null 1) := by
      unfold scrape
      rw [hg]
    rw [hsc, scrapeLoop.eq_def]
    simp [scrapeCont, truthy, Except.map]

/-- C9, witness: a head page with `_items` and no `_links`. -/
theorem C9_witness :
    get_items (fun u => if u = "f" then some (.obj [("_items", .arr [])]) else none)
        (.str "f") = .ok (.arr [], Json.null) ∧
    ∀ fuel, scrape (fun u => if u = "f" then some (.obj [("_items", .arr [])]) else none)
        "f" fuel = some (.ok (.arr [], 1, dumps (.arr []))) :=
  C9_response_keys.2.2.2.2
    (fun u => if u = "f" then some (.obj [("_items", .arr [])]) else none)
    "f" [("_items", .arr [])] (.arr []) rfl rfl rfl

/-- C10: an item that passes the cutoff has its `contents` key accessed
unconditionally: missing `attachments` (or an empty list) is silently
skipped with no tasks, but a missing `contents` key raises `KeyError` and
aborts the whole resolution, dropping all remaining items. -/
theorem C10_contents_access :
    (∀ DEST dt? kvs ts t, kvs.lookup "time" = some (.str ts) →
        strptimeISO ts = .ok t →
        (match dt? with | none => true | some dt => dtLt dt t) = true →
        kvs.lookup "contents" = none →
        processItem DEST dt? (.obj kvs) = .error (.keyError "contents") ∧
        ∀ rest, get_urlsGo DEST dt? (Json.obj kvs :: rest) =
          .error (.keyError "contents")) ∧
    (∀ DEST dt? kvs ts t ckvs, kvs.lookup "time" = some (.str ts) →
        strptimeISO ts = .ok t →
        kvs.lookup "contents" = some (.obj ckvs) →
        ckvs.lookup "attachments" = none →
        processItem DEST dt? (.obj kvs) = .ok []) ∧
    (∀ DEST dt? kvs ts t ckvs, kvs.lookup "time" = some (.str ts) →
        strptimeISO ts = .ok t →
        kvs.lookup "contents" = some (.obj ckvs) →
        ckvs.lookup "attachments" = some (.arr []) →
        processItem DEST dt? (.obj kvs) = .ok []) := by
  refine ⟨?_, ?_, ?_⟩
  · intro DEST dt? kvs ts t ht hiso hguard hc
    have hpi : processItem DEST dt? (.obj kvs) = .error (.keyError "contents") := by
      simp [processItem, getItem, asStrArg, ht, hiso, hguard, hc, bind, Except.bind]
    refine ⟨hpi, ?_⟩
    intro rest
    simp [get_urlsGo, hpi, bind, Except.bind]
  · intro DEST dt? kvs ts t ckvs ht hiso hc ha
    cases hguard : (match dt? with | none => true | some dt => dtLt dt t) with
    | true =>
      simp [processItem, getItem, asStrArg, ht, hiso, hguard, hc, dictGet, ha,
        truthy, bind, Except.bind, pure, Except.pure]
    | false =>
      simp [processItem, getItem, asStrArg, ht, hiso, hguard, hc, bind, Except.bind,
        pure, Except.pure]
  · intro DEST dt? kvs ts t ckvs ht hiso hc ha
    cases hguard : (match dt? with | none => true | some dt => dtLt dt t) with
    | true =>
      simp [processItem, getItem, asStrArg, ht, hiso, hguard, hc, dictGet, ha,
        truthy, bind, Except.bind, pure, Except.pure]
    | false =>
      simp [processItem, getItem, asStrArg, ht, hiso, hguard, hc, bind, Except.bind,
        pure, Except.pure]

/-- C10, witness: a passing item with no `contents` key aborts resolution. -/
theorem C10_witness :
    processItem "out" none
        (.obj [("time", .str "2020-05-10T00:00:00.000Z")]) =
      .error (.keyError "contents") ∧
    ∀ rest, get_urlsGo "out" none
        (Json.obj [("time", .str "2020-05-10T00:00:00.000Z")] :: rest) =
      .error (.keyError "contents") :=
  (C10_contents_access.1 "out" none [("time", .str "2020-05-10T00:00:00.000Z")]
    "2020-05-10T00:00:00.000Z" ⟨2020, 5, 10, 0, 0, 0, 0⟩ rfl rfl rfl rfl)
